import Mathlib

set_option maxRecDepth 2048
set_option maxHeartbeats 1000000

/-!
# Verification of the PCN874 receipt parsing / allocation-rewrite core

Shallow embedding of the repository's parsing engine:
* `src/lib/parser/pcn874.ts` — the delimiter-relative layout ("Variant B"):
  `isReceiptRow`, `parseReceiptRow`, `parseFile`, `updateAllocation`.
* the fixed-width 60-character layout ("Variant A") shipped alongside the
  validator schemas: `isReceiptRowA`, `parseReceiptRowA`, `parseFileA`,
  `updateAllocationA`.

JavaScript strings are modelled as `List Char`; `String.prototype.substring`
with in-range arguments becomes `take`/`drop`, `indexOf` becomes `findIdx?`,
`Map` insertion order becomes an association list, and thrown errors become
`Except UpdateError`.
-/

/-! ## JS string primitives -/

/-- `s.substring(a, b)` for `a ≤ b`: the characters in positions `[a, b)`,
clamped to the string (this matches the clamping JS performs). -/
def jsSubstring (l : List Char) (a b : Nat) : List Char := (l.take b).drop a

/-- `/^\d{n}$/.test s`: exactly `n` characters, all ASCII digits. -/
def digitsLen (n : Nat) (l : List Char) : Bool :=
  l.length == n && l.all Char.isDigit

/-- `parseInt(s, 10)` restricted to all-digit strings (the only way the
source calls it after its regex guards). -/
def digitsToNat (l : List Char) : Nat :=
  l.foldl (fun acc c => 10 * acc + (c.toNat - '0'.toNat)) 0

/-- `s.replace(/^0+/, '') || '0'`: strip leading zeros, defaulting to "0". -/
def stripLeadingZeros (l : List Char) : List Char :=
  match l.dropWhile (fun c => c == '0') with
  | [] => ['0']
  | r => r

/-- The whitespace characters relevant to `String.prototype.trim` for the
inputs in scope (ASCII whitespace, NBSP and the BOM/ZWNBSP character). -/
def isJsWhitespace (c : Char) : Bool :=
  c == ' ' || c == '\t' || c == '\n' || c == '\r' || c == '\x0b' ||
  c == '\x0c' || c == '\u00A0' || c == '\uFEFF'

/-- `s.trim()`: drop whitespace from both ends. -/
def trimList (l : List Char) : List Char :=
  ((l.dropWhile isJsWhitespace).reverse.dropWhile isJsWhitespace).reverse

/-- `s.replace(/^<BOM>/, '')`: remove a single leading U+FEFF byte-order
mark. -/
def stripBOM (l : List Char) : List Char :=
  match l with
  | '\uFEFF' :: rest => rest
  | _ => l

/-- `s.replace(/\r\n/g, '\n')`: left-to-right, non-overlapping. -/
def replaceCRLF : List Char → List Char
  | [] => []
  | [c] => [c]
  | c :: d :: rest =>
    if c = '\r' ∧ d = '\n' then '\n' :: replaceCRLF rest
    else c :: replaceCRLF (d :: rest)

/-- `s.replace(/\r/g, '\n')`. -/
def mapCRtoLF (l : List Char) : List Char :=
  l.map (fun c => if c == '\r' then '\n' else c)

/-- CRLF-then-lone-CR newline normalization (no BOM handling). -/
def normalizeEOL (l : List Char) : List Char := mapCRtoLF (replaceCRLF l)

/-- The full normalization the source applies before splitting:
BOM strip, then `\r\n → \n`, then `\r → \n`. -/
def normalizeText (l : List Char) : List Char := normalizeEOL (stripBOM l)

/-- `normalizedContent.split('\n')`. -/
def splitLines (content : List Char) : List (List Char) :=
  (normalizeText content).splitOn '\n'

/-- `content.includes('\r\n')`. -/
def hasCRLF : List Char → Bool
  | [] => false
  | [_] => false
  | c :: d :: rest => (c == '\r' && d == '\n') || hasCRLF (d :: rest)

/-- The line terminator chosen for re-joining: CRLF iff the *original*
content contains a CRLF anywhere, else LF. -/
def eolOf (content : List Char) : List Char :=
  if hasCRLF content then ['\r', '\n'] else ['\n']

/-- `/^[A-Z]/i.test s`: first character is an ASCII letter (the `i` flag
makes the class match both cases). -/
def jsTestStartLetterCI (l : List Char) : Bool :=
  match l with
  | [] => false
  | c :: _ => decide ('A' ≤ c ∧ c ≤ 'Z') || decide ('a' ≤ c ∧ c ≤ 'z')

/-- `/^T/i.test s`: first character is `'T'` or `'t'`. -/
def jsTestStartTCI (l : List Char) : Bool :=
  match l with
  | [] => false
  | c :: _ => c == 'T' || c == 't'

/-! ## Data model -/

/-- The extracted field values of one record line (`IReceipt` minus the
positional bookkeeping). -/
structure RowFields where
  rowType : Char
  businessNumber : List Char
  year : Nat
  month : Nat
  day : Nat
  receiptNumber : List Char
  vatAmount : Nat
  sumWithoutVat : Nat
  allocationNumber : List Char
deriving DecidableEq, Repr

/-- `IReceipt` from `types`: one parsed record line. -/
structure IReceipt where
  rowIndex : Nat
  lineNumber : Nat
  rawRow : List Char
  rowType : Char
  businessNumber : List Char
  year : Nat
  month : Nat
  day : Nat
  receiptNumber : List Char
  vatAmount : Nat
  sumWithoutVat : Nat
  allocationNumber : List Char
deriving DecidableEq, Repr

/-- Assemble an `IReceipt` from indices, the (trimmed) row text and fields. -/
def mkReceipt (rowIndex lineNumber : Nat) (raw : List Char) (f : RowFields) :
    IReceipt :=
  { rowIndex := rowIndex, lineNumber := lineNumber, rawRow := raw,
    rowType := f.rowType, businessNumber := f.businessNumber,
    year := f.year, month := f.month, day := f.day,
    receiptNumber := f.receiptNumber, vatAmount := f.vatAmount,
    sumWithoutVat := f.sumWithoutVat, allocationNumber := f.allocationNumber }

/-! ## Variant B: `src/lib/parser/pcn874.ts` -/

/-- `isReceiptRow` (Variant B): starts with a letter (case-insensitive
regex) and contains `'+'` anywhere. -/
def isReceiptRow (line : List Char) : Bool :=
  jsTestStartLetterCI line && line.contains '+'

/-- Field extraction of `parseReceiptRow` (Variant B), separated from the
index bookkeeping.  Follows the source's guard order exactly. -/
def extractFieldsB (row : List Char) : Option RowFields :=
  if jsTestStartLetterCI row then
    match row.findIdx? (fun c => c == '+') with
    | none => none
    | some plusIndex =>
      if row.length < 47 then none else
      if digitsLen 9 (jsSubstring row 1 10) then
        if digitsLen 4 (jsSubstring row 10 14) then
          if digitsToNat (jsSubstring row 10 14) < 1900 ∨
              2100 < digitsToNat (jsSubstring row 10 14) then none else
          if digitsLen 2 (jsSubstring row 14 16) then
            if digitsToNat (jsSubstring row 14 16) < 1 ∨
                12 < digitsToNat (jsSubstring row 14 16) then none else
            if digitsLen 2 (jsSubstring row 16 18) then
              if digitsToNat (jsSubstring row 16 18) < 1 ∨
                  31 < digitsToNat (jsSubstring row 16 18) then none else
              if plusIndex - 9 < 18 then none else
              if digitsLen 9 (jsSubstring row (plusIndex - 9) plusIndex) then
                if 0 < (jsSubstring row 18 (plusIndex - 9)).length ∧
                    ¬ (jsSubstring row 18 (plusIndex - 9)).all Char.isDigit
                  then none else
                if digitsLen 10
                    (jsSubstring row (plusIndex + 1) (plusIndex + 11)) then
                  if digitsLen 9 (row.drop (row.length - 9)) then
                    some { rowType := row.headD ' ',
                           businessNumber := jsSubstring row 1 10,
                           year := digitsToNat (jsSubstring row 10 14),
                           month := digitsToNat (jsSubstring row 14 16),
                           day := digitsToNat (jsSubstring row 16 18),
                           receiptNumber := stripLeadingZeros
                             (jsSubstring row 18 (plusIndex - 9)),
                           vatAmount := digitsToNat
                             (jsSubstring row (plusIndex - 9) plusIndex),
                           sumWithoutVat := digitsToNat
                             (jsSubstring row (plusIndex + 1) (plusIndex + 11)),
                           allocationNumber := row.drop (row.length - 9) }
                  else none
                else none
              else none
            else none
          else none
        else none
      else none
  else none

/-- `parseReceiptRow` (Variant B). -/
def parseReceiptRow (row : List Char) (rowIndex lineNumber : Nat) :
    Option IReceipt :=
  (extractFieldsB row).map (mkReceipt rowIndex lineNumber row)

/-! ## Variant A: the fixed-width 60-character layout -/

/-- `isReceiptRow` (Variant A): `'T'`/`'t'` start, length exactly 60, and
`'+'` at index 40. -/
def isReceiptRowA (line : List Char) : Bool :=
  jsTestStartTCI line && line.length == 60 && (line.getD 40 '\x00' == '+')

/-- Field extraction of the Variant A `parseReceiptRow`. -/
def extractFieldsA (row : List Char) : Option RowFields :=
  if jsTestStartTCI row then
    if row.length == 60 then
      if row.getD 40 '\x00' == '+' then
        if digitsLen 9 (jsSubstring row 1 10) then
          if digitsLen 4 (jsSubstring row 10 14) then
            if digitsToNat (jsSubstring row 10 14) < 1900 ∨
                2100 < digitsToNat (jsSubstring row 10 14) then none else
            if digitsLen 2 (jsSubstring row 14 16) then
              if digitsToNat (jsSubstring row 14 16) < 1 ∨
                  12 < digitsToNat (jsSubstring row 14 16) then none else
              if digitsLen 2 (jsSubstring row 16 18) then
                if digitsToNat (jsSubstring row 16 18) < 1 ∨
                    31 < digitsToNat (jsSubstring row 16 18) then none else
                if digitsLen 9 (jsSubstring row 22 31) then
                  if digitsLen 9 (jsSubstring row 31 40) then
                    if digitsLen 10 (jsSubstring row 41 51) then
                      if digitsLen 9 (jsSubstring row 51 60) then
                        some { rowType := row.headD ' ',
                               businessNumber := jsSubstring row 1 10,
                               year := digitsToNat (jsSubstring row 10 14),
                               month := digitsToNat (jsSubstring row 14 16),
                               day := digitsToNat (jsSubstring row 16 18),
                               receiptNumber := stripLeadingZeros
                                 (jsSubstring row 22 31),
                               vatAmount := digitsToNat (jsSubstring row 31 40),
                               sumWithoutVat := digitsToNat
                                 (jsSubstring row 41 51),
                               allocationNumber := jsSubstring row 51 60 }
                      else none
                    else none
                  else none
                else none
              else none
            else none
          else none
        else none
      else none
    else none
  else none

/-- `parseReceiptRow` (Variant A). -/
def parseReceiptRowA (row : List Char) (rowIndex lineNumber : Nat) :
    Option IReceipt :=
  (extractFieldsA row).map (mkReceipt rowIndex lineNumber row)

/-! ## File parsing (shared loop) -/

/-- `ParseResult`: records, error strings, and the `Map` from row index to
line number rendered as an association list in insertion order. -/
structure ParseResult where
  receipts : List IReceipt
  errors : List String
  lineMap : List (Nat × Nat)
deriving DecidableEq, Repr

/-- The per-line loop of `parseFile`, parameterized by the variant's
classifier and extractor.  `ln` is the 1-based number of the first line of
the remaining list; `ridx` the next record index. -/
def parseLoop (isRow : List Char → Bool) (extract : List Char → Option RowFields)
    (errMsg : Nat → String) : List (List Char) → Nat → Nat → ParseResult
  | [], _, _ => ⟨[], [], []⟩
  | raw :: rest, ln, ridx =>
    let line := trimList raw
    if line.isEmpty then parseLoop isRow extract errMsg rest (ln + 1) ridx
    else if isRow line then
      match extract line with
      | some f =>
        let res := parseLoop isRow extract errMsg rest (ln + 1) (ridx + 1)
        ⟨mkReceipt ridx ln line f :: res.receipts, res.errors,
          (ridx, ln) :: res.lineMap⟩
      | none =>
        let res := parseLoop isRow extract errMsg rest (ln + 1) ridx
        ⟨res.receipts, errMsg ln :: res.errors, res.lineMap⟩
    else parseLoop isRow extract errMsg rest (ln + 1) ridx

/-- `parseFile`, parameterized by the variant. -/
def parseFileCore (isRow : List Char → Bool)
    (extract : List Char → Option RowFields) (errMsg : Nat → String)
    (emptyMsg : String) (content : List Char) : ParseResult :=
  let res := parseLoop isRow extract errMsg (splitLines content) 1 0
  if res.receipts.isEmpty && res.errors.isEmpty then
    ⟨res.receipts, [emptyMsg], res.lineMap⟩
  else res

def invalidRowMsgB (n : Nat) : String :=
  "Line " ++ toString n ++ ": Invalid receipt row format"

def noRowsMsgB : String := "No valid receipt rows found in file"

def invalidRowMsgA (n : Nat) : String :=
  "Line " ++ toString n ++ ": Invalid supplier row format"

def noRowsMsgA : String := "No valid supplier rows (T rows) found in file"

/-- `parseFile` (Variant B, `pcn874.ts`). -/
def parseFile (content : List Char) : ParseResult :=
  parseFileCore isReceiptRow extractFieldsB invalidRowMsgB noRowsMsgB content

/-- `parseFile` (Variant A). -/
def parseFileA (content : List Char) : ParseResult :=
  parseFileCore isReceiptRowA extractFieldsA invalidRowMsgA noRowsMsgA content

/-! ## Allocation rewrite -/

/-- The typed failures of `updateAllocation` (the three `throw new Error`
sites, in source order). -/
inductive UpdateError where
  | invalidAllocation
  | lineNotFound
  | notARecordLine
deriving DecidableEq, Repr

/-- Decidable equality for update outcomes (used to evaluate the
operations on concrete inputs). -/
instance exceptDecidableEq {ε α : Type} [DecidableEq ε] [DecidableEq α] :
    DecidableEq (Except ε α) := fun x y =>
  match x, y with
  | .error a, .error b =>
    if h : a = b then .isTrue (by rw [h])
    else .isFalse (by intro hc; cases hc; exact h rfl)
  | .ok a, .ok b =>
    if h : a = b then .isTrue (by rw [h])
    else .isFalse (by intro hc; cases hc; exact h rfl)
  | .error _, .ok _ => .isFalse (by intro hc; cases hc)
  | .ok _, .error _ => .isFalse (by intro hc; cases hc)

/-- Variant B line rewrite: `originalLine.substring(0, length - 9) + alloc`
(the subtraction is clamped at 0 just as JS clamps a negative index). -/
def rewriteLineB (orig alloc : List Char) : List Char :=
  orig.take (orig.length - 9) ++ alloc

/-- Variant A line rewrite: `originalLine.substring(0, 51) + alloc`. -/
def rewriteLineA (orig alloc : List Char) : List Char :=
  orig.take 51 ++ alloc

/-- `updateAllocation`, parameterized by the variant's classifier and line
rewrite.  Guard order follows the source exactly. -/
def updateCore (isRow : List Char → Bool)
    (rewrite : List Char → List Char → List Char)
    (content : List Char) (lineNumber : Nat) (alloc : List Char) :
    Except UpdateError (List Char) :=
  if digitsLen 9 alloc then
    let lines := splitLines content
    if lineNumber < 1 ∨ lines.length < lineNumber then .error .lineNotFound
    else
      let originalLine := lines.getD (lineNumber - 1) []
      if isRow originalLine then
        .ok (List.intercalate (eolOf content)
          (lines.set (lineNumber - 1) (rewrite originalLine alloc)))
      else .error .notARecordLine
  else .error .invalidAllocation

/-- `updateAllocation` (Variant B, `pcn874.ts`). -/
def updateAllocation (content : List Char) (lineNumber : Nat)
    (alloc : List Char) : Except UpdateError (List Char) :=
  updateCore isReceiptRow rewriteLineB content lineNumber alloc

/-- `updateAllocation` (Variant A). -/
def updateAllocationA (content : List Char) (lineNumber : Nat)
    (alloc : List Char) : Except UpdateError (List Char) :=
  updateCore isReceiptRowA rewriteLineA content lineNumber alloc

/-- A well-formed Variant B record line (56 characters, `'+'` at index 36,
allocation field disjoint from the net field). -/
def exampleRowB : List Char :=
  "A12345678920251102000000014000000100+0000000200000000300".toList

/-- A second Variant B record line with different identifiers. -/
def exampleRowB2 : List Char :=
  "B98765432120251103000000015000000500+0000000600000000700".toList

/-- Three-line file: two valid record lines around one candidate line that
fails extraction. -/
def exampleContentC9 : List Char :=
  exampleRowB ++ '\n' :: "A+x".toList ++ '\n' :: exampleRowB2

/-- A minimal-length (47-character) Variant B record line: its first `'+'`
sits at index 37, so the trailing 9-character allocation field overlaps the
10-digit net-amount field that starts right after the `'+'`. -/
def rowBov : List Char :=
  "A123456789202511020000000140000001000+0000000200".toList

/-- `rowBov` after `updateAllocation` writes `111111111` over its last nine
characters: the overwrite also clobbers the tail of the net-amount field. -/
def rowBovUpd : List Char :=
  "A123456789202511020000000140000001000+0111111111".toList

/-- A well-formed Variant A record line: 60 characters, `'T'` row type,
`'+'` at index 40, allocation field at indices 51–59. -/
def exampleRowA : List Char :=
  "T123456789202511020000000000014000000100+0000000200000000300".toList

/-- The second record `parseFile` produces for `exampleContentC9`. -/
def exampleReceiptC9 : IReceipt :=
  { rowIndex := 1, lineNumber := 3, rawRow := exampleRowB2, rowType := 'B',
    businessNumber := "987654321".toList, year := 2025, month := 11, day := 3,
    receiptNumber := "15".toList, vatAmount := 500, sumWithoutVat := 600,
    allocationNumber := "000000700".toList }

/-- A physical line the parser treats as a candidate record line (nonempty
after trimming and classified by the variant) whose extraction succeeds. -/
def candOk (isRow : List Char → Bool)
    (extract : List Char → Option RowFields) (raw : List Char) : Bool :=
  !(trimList raw).isEmpty && isRow (trimList raw) &&
    (extract (trimList raw)).isSome

/-- A candidate record line whose extraction fails (it contributes one
error string). -/
def candFail (isRow : List Char → Bool)
    (extract : List Char → Option RowFields) (raw : List Char) : Bool :=
  !(trimList raw).isEmpty && isRow (trimList raw) &&
    (extract (trimList raw)).isNone

/-! ## Lemmas: newline normalization and splitting -/

theorem replaceCRLF_crlf_cons (l : List Char) :
    replaceCRLF ('\r' :: '\n' :: l) = '\n' :: replaceCRLF l := by
  simp [replaceCRLF]

theorem replaceCRLF_cons_of_ne (c : Char) (l : List Char) (h : c ≠ '\r') :
    replaceCRLF (c :: l) = c :: replaceCRLF l := by
  cases l with
  | nil => rfl
  | cons d rest => simp [replaceCRLF, h]

theorem replaceCRLF_append_of_no_cr (xs ys : List Char)
    (h : '\r' ∉ xs) : replaceCRLF (xs ++ ys) = xs ++ replaceCRLF ys := by
  induction xs with
  | nil => rfl
  | cons c rest ih =>
    have hc : c ≠ '\r' := fun hce => h (hce ▸ List.mem_cons_self c rest)
    have hrest : '\r' ∉ rest := fun hm => h (List.mem_cons_of_mem c hm)
    simp only [List.cons_append, replaceCRLF_cons_of_ne c _ hc, ih hrest]

theorem replaceCRLF_eq_self_of_no_cr (l : List Char) (h : '\r' ∉ l) :
    replaceCRLF l = l := by
  have := replaceCRLF_append_of_no_cr l [] h
  simpa [replaceCRLF] using this

theorem mapCRtoLF_eq_self_of_no_cr (l : List Char) (h : '\r' ∉ l) :
    mapCRtoLF l = l := by
  induction l with
  | nil => rfl
  | cons c rest ih =>
    have hc : c ≠ '\r' := fun hce => h (hce ▸ List.mem_cons_self c rest)
    have hrest : '\r' ∉ rest := fun hm => h (List.mem_cons_of_mem c hm)
    simp only [mapCRtoLF, List.map_cons] at *
    rw [ih hrest]
    simp [hc]

theorem mapCRtoLF_append (xs ys : List Char) :
    mapCRtoLF (xs ++ ys) = mapCRtoLF xs ++ mapCRtoLF ys := by
  simp [mapCRtoLF]

theorem not_cr_mem_mapCRtoLF (l : List Char) : '\r' ∉ mapCRtoLF l := by
  intro h
  unfold mapCRtoLF at h
  rw [List.mem_map] at h
  obtain ⟨c, -, hc⟩ := h
  by_cases hcr : c = '\r' <;> simp [hcr] at hc

theorem intercalate_nil_list (sep : List Char) :
    List.intercalate sep ([] : List (List Char)) = [] := by
  simp [List.intercalate]

theorem intercalate_single (sep x : List Char) :
    List.intercalate sep [x] = x := by
  simp [List.intercalate]

theorem intercalate_cons_cons (sep x y : List Char) (ys : List (List Char)) :
    List.intercalate sep (x :: y :: ys) =
      x ++ sep ++ List.intercalate sep (y :: ys) := by
  simp [List.intercalate, List.flatten]

theorem not_mem_intercalate_of_not_mem {c : Char} {sep : List Char}
    (ls : List (List Char)) (h : ∀ l ∈ ls, c ∉ l) (hsep : c ∉ sep) :
    c ∉ List.intercalate sep ls := by
  induction ls with
  | nil => simp [intercalate_nil_list]
  | cons x xs ih =>
    cases xs with
    | nil =>
      rw [intercalate_single]
      exact h x (List.mem_cons_self _ _)
    | cons y ys =>
      rw [intercalate_cons_cons]
      intro hmem
      rcases List.mem_append.mp hmem with hmem' | hmem'
      · rcases List.mem_append.mp hmem' with hx | hs
        · exact h x (List.mem_cons_self _ _) hx
        · exact hsep hs
      · exact ih (fun l hl => h l (List.mem_cons_of_mem _ hl)) hmem'

/-- Joining `\r`-free lines with LF and renormalizing is the identity. -/
theorem normalizeEOL_intercalate_lf (ls : List (List Char))
    (h : ∀ l ∈ ls, '\r' ∉ l) :
    normalizeEOL (List.intercalate ['\n'] ls) = List.intercalate ['\n'] ls := by
  have hnocr : '\r' ∉ List.intercalate ['\n'] ls :=
    not_mem_intercalate_of_not_mem ls h (by simp)
  unfold normalizeEOL
  rw [replaceCRLF_eq_self_of_no_cr _ hnocr, mapCRtoLF_eq_self_of_no_cr _ hnocr]

/-- Joining `\r`-free, `\n`-free lines with CRLF and renormalizing yields
the LF-joined form. -/
theorem normalizeEOL_intercalate_crlf (ls : List (List Char))
    (hcr : ∀ l ∈ ls, '\r' ∉ l) (hnl : ∀ l ∈ ls, '\n' ∉ l) :
    normalizeEOL (List.intercalate ['\r', '\n'] ls) =
      List.intercalate ['\n'] ls := by
  induction ls with
  | nil => simp [intercalate_nil_list, normalizeEOL, replaceCRLF, mapCRtoLF]
  | cons x xs ih =>
    cases xs with
    | nil =>
      rw [intercalate_single, intercalate_single]
      have : '\r' ∉ x := hcr x (List.mem_cons_self _ _)
      unfold normalizeEOL
      rw [replaceCRLF_eq_self_of_no_cr _ this, mapCRtoLF_eq_self_of_no_cr _ this]
    | cons y ys =>
      rw [intercalate_cons_cons, intercalate_cons_cons]
      have hx : '\r' ∉ x := hcr x (List.mem_cons_self _ _)
      have hrest₁ : ∀ l ∈ y :: ys, '\r' ∉ l :=
        fun l hl => hcr l (List.mem_cons_of_mem _ hl)
      have hrest₂ : ∀ l ∈ y :: ys, '\n' ∉ l :=
        fun l hl => hnl l (List.mem_cons_of_mem _ hl)
      unfold normalizeEOL
      rw [List.append_assoc, replaceCRLF_append_of_no_cr _ _ hx]
      rw [List.cons_append, List.cons_append, List.nil_append]
      rw [replaceCRLF_crlf_cons]
      rw [mapCRtoLF_append]
      rw [mapCRtoLF_eq_self_of_no_cr _ hx]
      have := ih hrest₁ hrest₂
      unfold normalizeEOL at this
      have hstep : mapCRtoLF ('\n' :: replaceCRLF (List.intercalate ['\r', '\n'] (y :: ys))) =
          '\n' :: mapCRtoLF (replaceCRLF (List.intercalate ['\r', '\n'] (y :: ys))) := by
        simp [mapCRtoLF]
      rw [hstep, this, List.append_assoc]
      rfl

theorem splitOnP_forall_not {p : Char → Bool} (xs : List Char) :
    ∀ l ∈ xs.splitOnP p, ∀ y ∈ l, p y = false := by
  induction xs with
  | nil =>
    intro l hl y hy
    simp only [List.splitOnP_nil, List.mem_singleton] at hl
    subst hl
    simp at hy
  | cons x xs ih =>
    intro l hl y hy
    rw [List.splitOnP_cons] at hl
    by_cases hx : p x
    · rw [if_pos hx] at hl
      rcases List.mem_cons.mp hl with rfl | hl'
      · simp at hy
      · exact ih l hl' y hy
    · rw [if_neg hx] at hl
      rcases hsp : xs.splitOnP p with - | ⟨h₀, t⟩
      · exact absurd hsp (List.splitOnP_ne_nil p xs)
      · rw [hsp] at hl
        simp only [List.modifyHead] at hl
        rcases List.mem_cons.mp hl with rfl | hl'
        · rcases List.mem_cons.mp hy with rfl | hy'
          · simpa using hx
          · exact ih h₀ (hsp ▸ List.mem_cons_self _ _) y hy'
        · exact ih l (hsp ▸ List.mem_cons_of_mem _ hl') y hy

theorem splitOnP_mem_subset {p : Char → Bool} (xs : List Char) :
    ∀ l ∈ xs.splitOnP p, ∀ y ∈ l, y ∈ xs := by
  induction xs with
  | nil =>
    intro l hl y hy
    simp only [List.splitOnP_nil, List.mem_singleton] at hl
    subst hl
    simp at hy
  | cons x xs ih =>
    intro l hl y hy
    rw [List.splitOnP_cons] at hl
    by_cases hx : p x
    · rw [if_pos hx] at hl
      rcases List.mem_cons.mp hl with rfl | hl'
      · simp at hy
      · exact List.mem_cons_of_mem _ (ih l hl' y hy)
    · rw [if_neg hx] at hl
      rcases hsp : xs.splitOnP p with - | ⟨h₀, t⟩
      · exact absurd hsp (List.splitOnP_ne_nil p xs)
      · rw [hsp] at hl
        simp only [List.modifyHead] at hl
        rcases List.mem_cons.mp hl with rfl | hl'
        · rcases List.mem_cons.mp hy with rfl | hy'
          · exact List.mem_cons_self _ _
          · exact List.mem_cons_of_mem _
              (ih h₀ (hsp ▸ List.mem_cons_self _ _) y hy')
        · exact List.mem_cons_of_mem _
            (ih l (hsp ▸ List.mem_cons_of_mem _ hl') y hy)

theorem splitOn_forall_not_mem (c : Char) (xs : List Char) :
    ∀ l ∈ xs.splitOn c, c ∉ l := by
  intro l hl hmem
  have := splitOnP_forall_not (p := (· == c)) xs l hl c hmem
  simp at this

theorem splitOn_mem_subset (c : Char) (xs : List Char) :
    ∀ l ∈ xs.splitOn c, ∀ y ∈ l, y ∈ xs :=
  splitOnP_mem_subset xs

theorem splitOn_ne_nil (c : Char) (xs : List Char) : xs.splitOn c ≠ [] :=
  List.splitOnP_ne_nil _ xs

/-- No element of `splitLines` contains a newline. -/
theorem splitLines_no_nl (content : List Char) :
    ∀ l ∈ splitLines content, '\n' ∉ l :=
  splitOn_forall_not_mem '\n' _

/-- No element of `splitLines` contains a carriage return. -/
theorem splitLines_no_cr (content : List Char) :
    ∀ l ∈ splitLines content, '\r' ∉ l := by
  intro l hl hmem
  have hsub := splitOn_mem_subset '\n' _ l hl '\r' hmem
  exact not_cr_mem_mapCRtoLF _ hsub

theorem splitLines_ne_nil (content : List Char) : splitLines content ≠ [] :=
  splitOn_ne_nil '\n' _

theorem stripBOM_of_head_ne (l : List Char)
    (h : l.head? ≠ some '﻿') : stripBOM l = l := by
  unfold stripBOM
  split
  · simp_all
  · rfl

theorem mem_stripBOM_subset (l : List Char) : ∀ y ∈ stripBOM l, y ∈ l := by
  unfold stripBOM
  split
  · intro y hy
    exact List.mem_cons_of_mem _ hy
  · intro y hy
    exact hy

/-- Stripping the BOM from a joined text strips it from the first line. -/
theorem stripBOM_intercalate (sep : List Char) (ls : List (List Char))
    (hsep : sep = ['\n'] ∨ sep = ['\r', '\n']) :
    stripBOM (List.intercalate sep ls) =
      List.intercalate sep (ls.modifyHead stripBOM) := by
  cases ls with
  | nil =>
    rw [List.modifyHead_nil, intercalate_nil_list]
    rfl
  | cons x rest =>
    rcases x with - | ⟨c, x'⟩
    · simp only [List.modifyHead]
      rw [show stripBOM [] = [] from rfl]
      cases rest with
      | nil =>
        rw [intercalate_single]
        rfl
      | cons y ys =>
        rw [intercalate_cons_cons]
        apply stripBOM_of_head_ne
        rcases hsep with rfl | rfl <;> simp
    · have hstrip : ∀ t : List Char, stripBOM ('﻿' :: t) = t := fun t => rfl
      by_cases hc : c = '﻿'
      · subst hc
        simp only [List.modifyHead]
        rw [hstrip]
        cases rest with
        | nil =>
          rw [intercalate_single, intercalate_single, hstrip]
        | cons y ys =>
          rw [intercalate_cons_cons, intercalate_cons_cons,
            List.cons_append, List.cons_append, hstrip]
      · have hx : stripBOM (c :: x') = c :: x' :=
          stripBOM_of_head_ne _ (by simp [hc])
        simp only [List.modifyHead, hx]
        apply stripBOM_of_head_ne
        cases rest with
        | nil =>
          rw [intercalate_single]
          simp [hc]
        | cons y ys =>
          rw [intercalate_cons_cons]
          simp [hc]

/-- Re-splitting a text joined from `\r\n`-free lines recovers the lines,
up to BOM-stripping of the first line. -/
theorem splitLines_intercalate (sep : List Char) (ls : List (List Char))
    (hne : ls ≠ []) (hcr : ∀ l ∈ ls, '\r' ∉ l) (hnl : ∀ l ∈ ls, '\n' ∉ l)
    (hsep : sep = ['\n'] ∨ sep = ['\r', '\n']) :
    splitLines (List.intercalate sep ls) = ls.modifyHead stripBOM := by
  unfold splitLines normalizeText
  rw [stripBOM_intercalate sep ls hsep]
  set ls' := ls.modifyHead stripBOM with hls'
  have hne' : ls' ≠ [] := by
    cases ls with
    | nil => exact absurd rfl hne
    | cons x rest => simp [hls', List.modifyHead]
  have hcr' : ∀ l ∈ ls', '\r' ∉ l := by
    cases ls with
    | nil => simp [hls']
    | cons x rest =>
      intro l hl
      simp only [hls', List.modifyHead] at hl
      rcases List.mem_cons.mp hl with rfl | hl'
      · intro hmem
        exact hcr x (List.mem_cons_self _ _) (mem_stripBOM_subset x _ hmem)
      · exact hcr l (List.mem_cons_of_mem _ hl')
  have hnl' : ∀ l ∈ ls', '\n' ∉ l := by
    cases ls with
    | nil => simp [hls']
    | cons x rest =>
      intro l hl
      simp only [hls', List.modifyHead] at hl
      rcases List.mem_cons.mp hl with rfl | hl'
      · intro hmem
        exact hnl x (List.mem_cons_self _ _) (mem_stripBOM_subset x _ hmem)
      · exact hnl l (List.mem_cons_of_mem _ hl')
  rcases hsep with rfl | rfl
  · rw [normalizeEOL_intercalate_lf ls' hcr']
    exact List.splitOn_intercalate ls' '\n' hnl' hne'
  · rw [normalizeEOL_intercalate_crlf ls' hcr' hnl']
    exact List.splitOn_intercalate ls' '\n' hnl' hne'

/-! ## Lemmas: whitespace and trimming -/

theorem isJsWhitespace_cases {c : Char} (h : isJsWhitespace c = true) :
    c = ' ' ∨ c = '\t' ∨ c = '\n' ∨ c = '\r' ∨ c = '\x0b' ∨ c = '\x0c' ∨
      c = ' ' ∨ c = '﻿' := by
  simp only [isJsWhitespace, Bool.or_eq_true, beq_iff_eq] at h
  tauto

theorem not_ws_of_letter {c : Char}
    (h : ('A' ≤ c ∧ c ≤ 'Z') ∨ ('a' ≤ c ∧ c ≤ 'z')) :
    isJsWhitespace c = false := by
  by_contra hws
  rw [Bool.not_eq_false] at hws
  rcases isJsWhitespace_cases hws with rfl | rfl | rfl | rfl | rfl | rfl | rfl | rfl <;>
    rcases h with ⟨h₁, h₂⟩ | ⟨h₁, h₂⟩ <;> revert h₁ h₂ <;> decide

theorem not_ws_of_digit {c : Char} (h : c.isDigit = true) :
    isJsWhitespace c = false := by
  by_contra hws
  rw [Bool.not_eq_false] at hws
  rcases isJsWhitespace_cases hws with rfl | rfl | rfl | rfl | rfl | rfl | rfl | rfl <;>
    revert h <;> decide

theorem dropWhile_eq_self_of_head {p : Char → Bool} {l : List Char}
    (h : ∀ c, l.head? = some c → p c = false) : l.dropWhile p = l := by
  cases l with
  | nil => rfl
  | cons c rest =>
    have := h c (by simp)
    simp [List.dropWhile_cons, this]

/-- If the first character is not whitespace, `trim` only strips from the
right, so the original splits as the trimmed part plus whitespace. -/
theorem trimList_decomp_of_head {l : List Char}
    (h : ∀ c, l.head? = some c → isJsWhitespace c = false) :
    l = trimList l ++ (l.reverse.takeWhile isJsWhitespace).reverse ∧
      ∀ c ∈ (l.reverse.takeWhile isJsWhitespace).reverse,
        isJsWhitespace c = true := by
  constructor
  · unfold trimList
    rw [dropWhile_eq_self_of_head h]
    conv_lhs => rw [← List.reverse_reverse l]
    conv_lhs => rw [← List.takeWhile_append_dropWhile (p := isJsWhitespace) (l := l.reverse)]
    rw [List.reverse_append]
  · intro c hc
    rw [List.mem_reverse] at hc
    exact List.mem_takeWhile_imp hc

/-- A string that neither starts nor ends with whitespace is unchanged by
`trim`. -/
theorem trimList_eq_self {l : List Char}
    (h₁ : ∀ c, l.head? = some c → isJsWhitespace c = false)
    (h₂ : ∀ c, l.getLast? = some c → isJsWhitespace c = false) :
    trimList l = l := by
  unfold trimList
  rw [dropWhile_eq_self_of_head h₁]
  rw [dropWhile_eq_self_of_head (by simpa using h₂)]
  exact List.reverse_reverse l

/-- `trim` never lengthens, and preserving the length forces identity. -/
theorem trimList_eq_self_of_length {l : List Char}
    (h : (trimList l).length = l.length) : trimList l = l := by
  unfold trimList at *
  have s₁ : List.Sublist (l.dropWhile isJsWhitespace) l :=
    List.dropWhile_sublist _
  have s₂ : List.Sublist
      ((l.dropWhile isJsWhitespace).reverse.dropWhile isJsWhitespace)
      (l.dropWhile isJsWhitespace).reverse :=
    List.dropWhile_sublist _
  simp only [List.length_reverse] at h
  have hlen₂ : ((l.dropWhile isJsWhitespace).reverse.dropWhile isJsWhitespace).length ≤
      (l.dropWhile isJsWhitespace).length := by
    have := s₂.length_le
    simpa using this
  have hlen₁ : (l.dropWhile isJsWhitespace).length ≤ l.length := s₁.length_le
  have e₁ : (l.dropWhile isJsWhitespace).length = l.length := by omega
  have e₂ : ((l.dropWhile isJsWhitespace).reverse.dropWhile isJsWhitespace).length =
      (l.dropWhile isJsWhitespace).reverse.length := by
    simp only [List.length_reverse]
    omega
  rw [s₂.eq_of_length e₂, List.reverse_reverse, s₁.eq_of_length e₁]

theorem trimList_nil : trimList [] = [] := rfl

/-! ## Lemmas: updateCore -/

theorem updateCore_eq_ok {isRow : List Char → Bool}
    {rewrite : List Char → List Char → List Char}
    {content : List Char} {L : Nat} {alloc out : List Char}
    (h : updateCore isRow rewrite content L alloc = .ok out) :
    digitsLen 9 alloc = true ∧ 1 ≤ L ∧ L ≤ (splitLines content).length ∧
    isRow ((splitLines content).getD (L - 1) []) = true ∧
    out = List.intercalate (eolOf content)
      ((splitLines content).set (L - 1)
        (rewrite ((splitLines content).getD (L - 1) []) alloc)) := by
  simp only [updateCore] at h
  split at h
  · split at h
    · exact absurd h (by simp)
    · split at h
      · rename_i hd hrange hrow
        rw [not_or] at hrange
        refine ⟨hd, by omega, by omega, hrow, ?_⟩
        exact (Except.ok.inj h).symm
      · exact absurd h (by simp)
  · exact absurd h (by simp)

theorem updateCore_error_invalid_iff {isRow : List Char → Bool}
    {rewrite : List Char → List Char → List Char}
    {content : List Char} {L : Nat} {alloc : List Char} :
    updateCore isRow rewrite content L alloc = .error .invalidAllocation ↔
      digitsLen 9 alloc = false := by
  simp only [updateCore]
  split
  · split
    · simp_all
    · split <;> simp_all
  · simp_all

theorem updateCore_error_notfound_iff {isRow : List Char → Bool}
    {rewrite : List Char → List Char → List Char}
    {content : List Char} {L : Nat} {alloc : List Char} :
    updateCore isRow rewrite content L alloc = .error .lineNotFound ↔
      (digitsLen 9 alloc = true ∧
        (L < 1 ∨ (splitLines content).length < L)) := by
  simp only [updateCore]
  split
  · split
    · simp_all
    · split <;> simp_all
  · simp_all

theorem updateCore_error_notrecord_iff {isRow : List Char → Bool}
    {rewrite : List Char → List Char → List Char}
    {content : List Char} {L : Nat} {alloc : List Char} :
    updateCore isRow rewrite content L alloc = .error .notARecordLine ↔
      (digitsLen 9 alloc = true ∧ 1 ≤ L ∧ L ≤ (splitLines content).length ∧
        isRow ((splitLines content).getD (L - 1) []) = false) := by
  simp only [updateCore]
  split
  · split
    · rename_i hrange
      simp only [Except.error.injEq]
      constructor
      · intro hc
        cases hc
      · rintro ⟨-, h₁, h₂, -⟩
        omega
    · rename_i hd hrange
      rw [not_or] at hrange
      split <;> simp_all <;> omega
  · simp_all

theorem updateCore_ok_exists_iff {isRow : List Char → Bool}
    {rewrite : List Char → List Char → List Char}
    {content : List Char} {L : Nat} {alloc : List Char} :
    (∃ out, updateCore isRow rewrite content L alloc = .ok out) ↔
      (digitsLen 9 alloc = true ∧ 1 ≤ L ∧ L ≤ (splitLines content).length ∧
        isRow ((splitLines content).getD (L - 1) []) = true) := by
  simp only [updateCore]
  split
  · split
    · rename_i hrange
      simp only [reduceCtorEq, exists_const, false_iff, not_and]
      intro h₁ h₂ h₃
      omega
    · rename_i hd hrange
      rw [not_or] at hrange
      split <;> simp_all <;> omega
  · simp_all

theorem hasCRLF_append_right (xs ys : List Char) (h : hasCRLF ys = true) :
    hasCRLF (xs ++ ys) = true := by
  induction xs with
  | nil => simpa using h
  | cons c xs' ih =>
    have hne : xs' ++ ys ≠ [] := by
      intro hcon
      rcases List.append_eq_nil.mp hcon with ⟨-, rfl⟩
      simp [hasCRLF] at h
    rcases hxy : xs' ++ ys with - | ⟨d, t⟩
    · exact absurd hxy hne
    · rw [List.cons_append, hxy]
      show ((c == '\r' && d == '\n') || hasCRLF (d :: t)) = true
      rw [← hxy, ih]
      simp

theorem hasCRLF_intercalate_crlf (x y : List Char) (ys : List (List Char)) :
    hasCRLF (List.intercalate ['\r', '\n'] (x :: y :: ys)) = true := by
  rw [intercalate_cons_cons, List.append_assoc]
  apply hasCRLF_append_right
  show (('\r' == '\r' && '\n' == '\n') ||
    hasCRLF ('\n' :: List.intercalate ['\r', '\n'] (y :: ys))) = true
  simp

theorem hasCRLF_eq_false_of_no_cr (l : List Char) (h : '\r' ∉ l) :
    hasCRLF l = false := by
  induction l with
  | nil => rfl
  | cons c rest ih =>
    have hc : c ≠ '\r' := fun hce => h (hce ▸ List.mem_cons_self _ _)
    have hrest : '\r' ∉ rest := fun hm => h (List.mem_cons_of_mem _ hm)
    cases rest with
    | nil => rfl
    | cons d t =>
      show ((c == '\r' && d == '\n') || hasCRLF (d :: t)) = false
      rw [ih hrest]
      simp [hc]

theorem digits_no_cr_nl {alloc : List Char} (h : alloc.all Char.isDigit) :
    '\r' ∉ alloc ∧ '\n' ∉ alloc := by
  rw [List.all_eq_true] at h
  constructor
  · intro hm
    have := h _ hm
    simp at this
  · intro hm
    have := h _ hm
    simp at this

/-- Core locality fact: a successful update leaves every normalized input
line other than the addressed one unchanged in the output. -/
theorem updateCore_locality {isRow : List Char → Bool}
    {rewrite : List Char → List Char → List Char}
    {content : List Char} {L : Nat} {alloc out : List Char}
    (hm : '\r' ∉ rewrite ((splitLines content).getD (L - 1) []) alloc ∧
          '\n' ∉ rewrite ((splitLines content).getD (L - 1) []) alloc)
    (h : updateCore isRow rewrite content L alloc = .ok out) :
    ((normalizeEOL out).splitOn '\n').length = (splitLines content).length ∧
    ∀ i, i ≠ L - 1 →
      ((normalizeEOL out).splitOn '\n').getD i [] =
        (splitLines content).getD i [] := by
  obtain ⟨-, -, hle, -, hout⟩ := updateCore_eq_ok h
  set ls := splitLines content with hls
  set m := rewrite (ls.getD (L - 1) []) alloc with hmdef
  have hcr' : ∀ l ∈ ls.set (L - 1) m, '\r' ∉ l := by
    intro l hl
    rcases List.mem_or_eq_of_mem_set hl with hl' | rfl
    · exact splitLines_no_cr content l hl'
    · exact hm.1
  have hnl' : ∀ l ∈ ls.set (L - 1) m, '\n' ∉ l := by
    intro l hl
    rcases List.mem_or_eq_of_mem_set hl with hl' | rfl
    · exact splitLines_no_nl content l hl'
    · exact hm.2
  have hne' : ls.set (L - 1) m ≠ [] := by
    rw [Ne, List.set_eq_nil_iff]
    exact splitLines_ne_nil content
  have hsplit : (normalizeEOL out).splitOn '\n' = ls.set (L - 1) m := by
    rw [hout]
    unfold eolOf
    by_cases hw : hasCRLF content
    · rw [if_pos hw, normalizeEOL_intercalate_crlf _ hcr' hnl']
      exact List.splitOn_intercalate _ '\n' hnl' hne'
    · rw [if_neg hw, normalizeEOL_intercalate_lf _ hcr']
      exact List.splitOn_intercalate _ '\n' hnl' hne'
  rw [hsplit]
  constructor
  · exact List.length_set ls _ _
  · intro i hi
    simp only [List.getD_eq_getElem?_getD]
    rw [List.getElem?_set_ne (Ne.symm hi)]

/-! ## Lemmas: the parse loop -/

section ParseLoopLemmas

variable (isRow : List Char → Bool) (extract : List Char → Option RowFields)
variable (errMsg : Nat → String)

theorem parseLoop_nil (ln ridx : Nat) :
    parseLoop isRow extract errMsg [] ln ridx = ⟨[], [], []⟩ := rfl

theorem parseLoop_cons_empty {raw : List Char} (rest : List (List Char))
    (ln ridx : Nat) (h : trimList raw = []) :
    parseLoop isRow extract errMsg (raw :: rest) ln ridx =
      parseLoop isRow extract errMsg rest (ln + 1) ridx := by
  simp [parseLoop, h]

theorem parseLoop_cons_skip {raw : List Char} (rest : List (List Char))
    (ln ridx : Nat) (h : trimList raw ≠ [])
    (h₂ : isRow (trimList raw) = false) :
    parseLoop isRow extract errMsg (raw :: rest) ln ridx =
      parseLoop isRow extract errMsg rest (ln + 1) ridx := by
  simp [parseLoop, h, h₂]

theorem parseLoop_cons_ok {raw : List Char} (rest : List (List Char))
    (ln ridx : Nat) {f : RowFields} (h : trimList raw ≠ [])
    (h₂ : isRow (trimList raw) = true)
    (h₃ : extract (trimList raw) = some f) :
    parseLoop isRow extract errMsg (raw :: rest) ln ridx =
      ⟨mkReceipt ridx ln (trimList raw) f ::
          (parseLoop isRow extract errMsg rest (ln + 1) (ridx + 1)).receipts,
        (parseLoop isRow extract errMsg rest (ln + 1) (ridx + 1)).errors,
        (ridx, ln) ::
          (parseLoop isRow extract errMsg rest (ln + 1) (ridx + 1)).lineMap⟩ := by
  simp [parseLoop, h, h₂, h₃]

theorem parseLoop_cons_fail {raw : List Char} (rest : List (List Char))
    (ln ridx : Nat) (h : trimList raw ≠ [])
    (h₂ : isRow (trimList raw) = true)
    (h₃ : extract (trimList raw) = none) :
    parseLoop isRow extract errMsg (raw :: rest) ln ridx =
      ⟨(parseLoop isRow extract errMsg rest (ln + 1) ridx).receipts,
        errMsg ln ::
          (parseLoop isRow extract errMsg rest (ln + 1) ridx).errors,
        (parseLoop isRow extract errMsg rest (ln + 1) ridx).lineMap⟩ := by
  simp [parseLoop, h, h₂, h₃]

end ParseLoopLemmas

section ParseLoopInduction

variable (isRow : List Char → Bool) (extract : List Char → Option RowFields)
variable (errMsg : Nat → String)

/-- Record `i` of the loop output carries row index `ridx + i`. -/
theorem parseLoop_rowIndex (ls : List (List Char)) (ln ridx : Nat) :
    ∀ i r, (parseLoop isRow extract errMsg ls ln ridx).receipts[i]? = some r →
      r.rowIndex = ridx + i := by
  induction ls generalizing ln ridx with
  | nil => intro i r h; simp [parseLoop_nil] at h
  | cons raw rest ih =>
    intro i r h
    by_cases h₀ : trimList raw = []
    · rw [parseLoop_cons_empty isRow extract errMsg rest ln ridx h₀] at h
      exact ih (ln + 1) ridx i r h
    · by_cases h₂ : isRow (trimList raw) = true
      · cases h₃ : extract (trimList raw) with
        | some f =>
          rw [parseLoop_cons_ok isRow extract errMsg rest ln ridx h₀ h₂ h₃] at h
          cases i with
          | zero =>
            simp only [List.getElem?_cons_zero, Option.some.injEq] at h
            subst h
            simp [mkReceipt]
          | succ j =>
            simp only [List.getElem?_cons_succ] at h
            rw [ih (ln + 1) (ridx + 1) j r h]
            omega
        | none =>
          rw [parseLoop_cons_fail isRow extract errMsg rest ln ridx h₀ h₂ h₃] at h
          exact ih (ln + 1) ridx i r h
      · rw [Bool.not_eq_true] at h₂
        rw [parseLoop_cons_skip isRow extract errMsg rest ln ridx h₀ h₂] at h
        exact ih (ln + 1) ridx i r h

/-- The line map is exactly the (rowIndex, lineNumber) pairs of the
records, in order. -/
theorem parseLoop_lineMap (ls : List (List Char)) (ln ridx : Nat) :
    (parseLoop isRow extract errMsg ls ln ridx).lineMap =
      (parseLoop isRow extract errMsg ls ln ridx).receipts.map
        (fun r => (r.rowIndex, r.lineNumber)) := by
  induction ls generalizing ln ridx with
  | nil => simp [parseLoop_nil]
  | cons raw rest ih =>
    by_cases h₀ : trimList raw = []
    · rw [parseLoop_cons_empty isRow extract errMsg rest ln ridx h₀]
      exact ih (ln + 1) ridx
    · by_cases h₂ : isRow (trimList raw) = true
      · cases h₃ : extract (trimList raw) with
        | some f =>
          rw [parseLoop_cons_ok isRow extract errMsg rest ln ridx h₀ h₂ h₃]
          simp only [List.map_cons, mkReceipt]
          rw [ih (ln + 1) (ridx + 1)]
        | none =>
          rw [parseLoop_cons_fail isRow extract errMsg rest ln ridx h₀ h₂ h₃]
          exact ih (ln + 1) ridx
      · rw [Bool.not_eq_true] at h₂
        rw [parseLoop_cons_skip isRow extract errMsg rest ln ridx h₀ h₂]
        exact ih (ln + 1) ridx

/-- All records produced by the loop lie at or after the starting line. -/
theorem parseLoop_lineNumber_lb (ls : List (List Char)) (ln ridx : Nat) :
    ∀ r ∈ (parseLoop isRow extract errMsg ls ln ridx).receipts,
      ln ≤ r.lineNumber := by
  induction ls generalizing ln ridx with
  | nil => intro r hr; simp [parseLoop_nil] at hr
  | cons raw rest ih =>
    intro r hr
    by_cases h₀ : trimList raw = []
    · rw [parseLoop_cons_empty isRow extract errMsg rest ln ridx h₀] at hr
      have := ih (ln + 1) ridx r hr
      omega
    · by_cases h₂ : isRow (trimList raw) = true
      · cases h₃ : extract (trimList raw) with
        | some f =>
          rw [parseLoop_cons_ok isRow extract errMsg rest ln ridx h₀ h₂ h₃] at hr
          rcases List.mem_cons.mp hr with rfl | hr'
          · simp [mkReceipt]
          · have := ih (ln + 1) (ridx + 1) r hr'
            omega
        | none =>
          rw [parseLoop_cons_fail isRow extract errMsg rest ln ridx h₀ h₂ h₃] at hr
          have := ih (ln + 1) ridx r hr
          omega
      · rw [Bool.not_eq_true] at h₂
        rw [parseLoop_cons_skip isRow extract errMsg rest ln ridx h₀ h₂] at hr
        have := ih (ln + 1) ridx r hr
        omega

/-- Records appear in strictly increasing source line order. -/
theorem parseLoop_pairwise (ls : List (List Char)) (ln ridx : Nat) :
    List.Pairwise (fun a b => a.lineNumber < b.lineNumber)
      (parseLoop isRow extract errMsg ls ln ridx).receipts := by
  induction ls generalizing ln ridx with
  | nil => simp [parseLoop_nil]
  | cons raw rest ih =>
    by_cases h₀ : trimList raw = []
    · rw [parseLoop_cons_empty isRow extract errMsg rest ln ridx h₀]
      exact ih (ln + 1) ridx
    · by_cases h₂ : isRow (trimList raw) = true
      · cases h₃ : extract (trimList raw) with
        | some f =>
          rw [parseLoop_cons_ok isRow extract errMsg rest ln ridx h₀ h₂ h₃]
          refine List.Pairwise.cons ?_ (ih (ln + 1) (ridx + 1))
          intro r hr
          have := parseLoop_lineNumber_lb isRow extract errMsg rest
            (ln + 1) (ridx + 1) r hr
          simp only [mkReceipt]
          omega
        | none =>
          rw [parseLoop_cons_fail isRow extract errMsg rest ln ridx h₀ h₂ h₃]
          exact ih (ln + 1) ridx
      · rw [Bool.not_eq_true] at h₂
        rw [parseLoop_cons_skip isRow extract errMsg rest ln ridx h₀ h₂]
        exact ih (ln + 1) ridx

/-- The number of records equals the number of successful candidates. -/
theorem parseLoop_length_receipts (ls : List (List Char)) (ln ridx : Nat) :
    (parseLoop isRow extract errMsg ls ln ridx).receipts.length =
      ls.countP (candOk isRow extract) := by
  induction ls generalizing ln ridx with
  | nil => simp [parseLoop_nil]
  | cons raw rest ih =>
    by_cases h₀ : trimList raw = []
    · rw [parseLoop_cons_empty isRow extract errMsg rest ln ridx h₀]
      rw [List.countP_cons_of_neg _ _ (by simp [candOk, h₀])]
      exact ih (ln + 1) ridx
    · by_cases h₂ : isRow (trimList raw) = true
      · cases h₃ : extract (trimList raw) with
        | some f =>
          rw [parseLoop_cons_ok isRow extract errMsg rest ln ridx h₀ h₂ h₃]
          rw [List.countP_cons_of_pos _ _
            (by simp [candOk, h₀, h₂, h₃, List.isEmpty_iff])]
          simp only [List.length_cons]
          rw [ih (ln + 1) (ridx + 1)]
        | none =>
          rw [parseLoop_cons_fail isRow extract errMsg rest ln ridx h₀ h₂ h₃]
          rw [List.countP_cons_of_neg _ _ (by simp [candOk, h₀, h₂, h₃])]
          exact ih (ln + 1) ridx
      · rw [Bool.not_eq_true] at h₂
        rw [parseLoop_cons_skip isRow extract errMsg rest ln ridx h₀ h₂]
        rw [List.countP_cons_of_neg _ _ (by simp [candOk, h₀, h₂])]
        exact ih (ln + 1) ridx

/-- The number of error strings equals the number of failed candidates. -/
theorem parseLoop_length_errors (ls : List (List Char)) (ln ridx : Nat) :
    (parseLoop isRow extract errMsg ls ln ridx).errors.length =
      ls.countP (candFail isRow extract) := by
  induction ls generalizing ln ridx with
  | nil => simp [parseLoop_nil]
  | cons raw rest ih =>
    by_cases h₀ : trimList raw = []
    · rw [parseLoop_cons_empty isRow extract errMsg rest ln ridx h₀]
      rw [List.countP_cons_of_neg _ _ (by simp [candFail, h₀])]
      exact ih (ln + 1) ridx
    · by_cases h₂ : isRow (trimList raw) = true
      · cases h₃ : extract (trimList raw) with
        | some f =>
          rw [parseLoop_cons_ok isRow extract errMsg rest ln ridx h₀ h₂ h₃]
          rw [List.countP_cons_of_neg _ _ (by simp [candFail, h₀, h₂, h₃])]
          exact ih (ln + 1) (ridx + 1)
        | none =>
          rw [parseLoop_cons_fail isRow extract errMsg rest ln ridx h₀ h₂ h₃]
          rw [List.countP_cons_of_pos _ _
            (by simp [candFail, h₀, h₂, h₃, List.isEmpty_iff])]
          simp only [List.length_cons]
          rw [ih (ln + 1) ridx]
      · rw [Bool.not_eq_true] at h₂
        rw [parseLoop_cons_skip isRow extract errMsg rest ln ridx h₀ h₂]
        rw [List.countP_cons_of_neg _ _ (by simp [candFail, h₀, h₂])]
        exact ih (ln + 1) ridx

end ParseLoopInduction

section ParseLoopMembership

variable (isRow : List Char → Bool) (extract : List Char → Option RowFields)
variable (errMsg : Nat → String)

/-- Every record in the loop output comes from a successful candidate
line: its fields are those extracted from the trimmed line, and its
`rawRow` is that trimmed line. -/
theorem parseLoop_mem_inv (ls : List (List Char)) (ln ridx : Nat) :
    ∀ r ∈ (parseLoop isRow extract errMsg ls ln ridx).receipts,
      ∃ k, k < ls.length ∧ r.lineNumber = ln + k ∧
        trimList (ls.getD k []) ≠ [] ∧
        isRow (trimList (ls.getD k [])) = true ∧
        ∃ f, extract (trimList (ls.getD k [])) = some f ∧
          r = mkReceipt r.rowIndex (ln + k) (trimList (ls.getD k [])) f := by
  induction ls generalizing ln ridx with
  | nil => intro r hr; simp [parseLoop_nil] at hr
  | cons raw rest ih =>
    intro r hr
    by_cases h₀ : trimList raw = []
    · rw [parseLoop_cons_empty isRow extract errMsg rest ln ridx h₀] at hr
      obtain ⟨k, hk, hln, hne, hrow, f, hf, hr'⟩ := ih (ln + 1) ridx r hr
      exact ⟨k + 1, by simpa using hk, by omega, by simpa using hne,
        by simpa using hrow, f, by simpa using hf, by simpa [Nat.add_assoc, Nat.add_comm 1 k] using hr'⟩
    · by_cases h₂ : isRow (trimList raw) = true
      · cases h₃ : extract (trimList raw) with
        | some f =>
          rw [parseLoop_cons_ok isRow extract errMsg rest ln ridx h₀ h₂ h₃] at hr
          rcases List.mem_cons.mp hr with rfl | hr'
          · exact ⟨0, by simp, by simp [mkReceipt], by simpa using h₀,
              by simpa using h₂, f, by simpa using h₃, by simp [mkReceipt]⟩
          · obtain ⟨k, hk, hln, hne, hrow, f', hf, hr''⟩ :=
              ih (ln + 1) (ridx + 1) r hr'
            exact ⟨k + 1, by simpa using hk, by omega, by simpa using hne,
              by simpa using hrow, f', by simpa using hf,
              by simpa [Nat.add_assoc, Nat.add_comm 1 k] using hr''⟩
        | none =>
          rw [parseLoop_cons_fail isRow extract errMsg rest ln ridx h₀ h₂ h₃] at hr
          obtain ⟨k, hk, hln, hne, hrow, f, hf, hr'⟩ := ih (ln + 1) ridx r hr
          exact ⟨k + 1, by simpa using hk, by omega, by simpa using hne,
            by simpa using hrow, f, by simpa using hf,
            by simpa [Nat.add_assoc, Nat.add_comm 1 k] using hr'⟩
      · rw [Bool.not_eq_true] at h₂
        rw [parseLoop_cons_skip isRow extract errMsg rest ln ridx h₀ h₂] at hr
        obtain ⟨k, hk, hln, hne, hrow, f, hf, hr'⟩ := ih (ln + 1) ridx r hr
        exact ⟨k + 1, by simpa using hk, by omega, by simpa using hne,
          by simpa using hrow, f, by simpa using hf,
          by simpa [Nat.add_assoc, Nat.add_comm 1 k] using hr'⟩

/-- Conversely, every successful candidate line yields a record at its
line number. -/
theorem parseLoop_mem_of_line (ls : List (List Char)) (ln ridx : Nat) :
    ∀ k, k < ls.length → trimList (ls.getD k []) ≠ [] →
      isRow (trimList (ls.getD k [])) = true →
      ∀ f, extract (trimList (ls.getD k [])) = some f →
        ∃ r ∈ (parseLoop isRow extract errMsg ls ln ridx).receipts,
          r.lineNumber = ln + k ∧
          r = mkReceipt r.rowIndex (ln + k) (trimList (ls.getD k [])) f := by
  induction ls generalizing ln ridx with
  | nil => intro k hk; simp at hk
  | cons raw rest ih =>
    intro k hk hne hrow f hf
    cases k with
    | zero =>
      simp only [List.getD_cons_zero] at hne hrow hf
      have h₂ := hrow
      rw [parseLoop_cons_ok isRow extract errMsg rest ln ridx hne h₂ hf]
      refine ⟨mkReceipt ridx ln (trimList raw) f, List.mem_cons_self _ _, ?_, ?_⟩
      · simp [mkReceipt]
      · simp [mkReceipt]
    | succ j =>
      simp only [List.getD_cons_succ] at hne hrow hf
      have hj : j < rest.length := by simpa using hk
      by_cases h₀ : trimList raw = []
      · rw [parseLoop_cons_empty isRow extract errMsg rest ln ridx h₀]
        obtain ⟨r, hr, hln, hr'⟩ := ih (ln + 1) ridx j hj hne hrow f hf
        exact ⟨r, hr, by omega, by rw [hr']; congr 1; omega⟩
      · by_cases h₂ : isRow (trimList raw) = true
        · cases h₃ : extract (trimList raw) with
          | some g =>
            rw [parseLoop_cons_ok isRow extract errMsg rest ln ridx h₀ h₂ h₃]
            obtain ⟨r, hr, hln, hr'⟩ := ih (ln + 1) (ridx + 1) j hj hne hrow f hf
            exact ⟨r, List.mem_cons_of_mem _ hr, by omega,
              by rw [hr']; congr 1; omega⟩
          | none =>
            rw [parseLoop_cons_fail isRow extract errMsg rest ln ridx h₀ h₂ h₃]
            obtain ⟨r, hr, hln, hr'⟩ := ih (ln + 1) ridx j hj hne hrow f hf
            exact ⟨r, hr, by omega, by rw [hr']; congr 1; omega⟩
        · rw [Bool.not_eq_true] at h₂
          rw [parseLoop_cons_skip isRow extract errMsg rest ln ridx h₀ h₂]
          obtain ⟨r, hr, hln, hr'⟩ := ih (ln + 1) ridx j hj hne hrow f hf
          exact ⟨r, hr, by omega, by rw [hr']; congr 1; omega⟩

/-- If no line is a candidate, the loop returns the empty result. -/
theorem parseLoop_empty_of_no_cand (ls : List (List Char)) (ln ridx : Nat)
    (h : ∀ raw ∈ ls, trimList raw = [] ∨ isRow (trimList raw) = false) :
    parseLoop isRow extract errMsg ls ln ridx = ⟨[], [], []⟩ := by
  induction ls generalizing ln ridx with
  | nil => exact parseLoop_nil isRow extract errMsg ln ridx
  | cons raw rest ih =>
    have hrest : ∀ raw' ∈ rest, trimList raw' = [] ∨
        isRow (trimList raw') = false :=
      fun raw' hm => h raw' (List.mem_cons_of_mem _ hm)
    rcases h raw (List.mem_cons_self _ _) with h₀ | h₂
    · rw [parseLoop_cons_empty isRow extract errMsg rest ln ridx h₀]
      exact ih (ln + 1) ridx hrest
    · by_cases h₀ : trimList raw = []
      · rw [parseLoop_cons_empty isRow extract errMsg rest ln ridx h₀]
        exact ih (ln + 1) ridx hrest
      · rw [parseLoop_cons_skip isRow extract errMsg rest ln ridx h₀ h₂]
        exact ih (ln + 1) ridx hrest

end ParseLoopMembership

section ParseLoopLookup

variable (isRow : List Char → Bool) (extract : List Char → Option RowFields)
variable (errMsg : Nat → String)

/-- Looking up record `k`'s row index in the line map yields its line
number. -/
theorem parseLoop_lookup (ls : List (List Char)) (ln ridx : Nat) :
    ∀ k r, (parseLoop isRow extract errMsg ls ln ridx).receipts[k]? = some r →
      List.lookup (ridx + k)
        (parseLoop isRow extract errMsg ls ln ridx).lineMap =
        some r.lineNumber := by
  induction ls generalizing ln ridx with
  | nil => intro k r h; simp [parseLoop_nil] at h
  | cons raw rest ih =>
    intro k r h
    by_cases h₀ : trimList raw = []
    · rw [parseLoop_cons_empty isRow extract errMsg rest ln ridx h₀] at h ⊢
      exact ih (ln + 1) ridx k r h
    · by_cases h₂ : isRow (trimList raw) = true
      · cases h₃ : extract (trimList raw) with
        | some f =>
          rw [parseLoop_cons_ok isRow extract errMsg rest ln ridx h₀ h₂ h₃] at h ⊢
          cases k with
          | zero =>
            simp only [List.getElem?_cons_zero, Option.some.injEq] at h
            subst h
            simp [List.lookup, mkReceipt]
          | succ j =>
            simp only [List.getElem?_cons_succ] at h
            have := ih (ln + 1) (ridx + 1) j r h
            rw [show ridx + (j + 1) = ridx + 1 + j by omega]
            simp only [List.lookup]
            have hne : (ridx + 1 + j == ridx) = false :=
              beq_eq_false_iff_ne.mpr (by omega)
            rw [hne, this]
        | none =>
          rw [parseLoop_cons_fail isRow extract errMsg rest ln ridx h₀ h₂ h₃] at h ⊢
          exact ih (ln + 1) ridx k r h
      · rw [Bool.not_eq_true] at h₂
        rw [parseLoop_cons_skip isRow extract errMsg rest ln ridx h₀ h₂] at h ⊢
        exact ih (ln + 1) ridx k r h

end ParseLoopLookup

/-! ## Lemmas: field extraction (Variant B) -/

/-- Reduction of `extractFieldsB` when the first character test fails. -/
theorem extractFieldsB_not_letter {row : List Char}
    (hl : jsTestStartLetterCI row = false) : extractFieldsB row = none := by
  delta extractFieldsB
  rw [hl]
  rfl

/-- Reduction of `extractFieldsB` when the row has no `'+'`. -/
theorem extractFieldsB_plus_none {row : List Char}
    (hp : row.findIdx? (fun c => c == '+') = none) :
    extractFieldsB row = if jsTestStartLetterCI row then none else none := by
  delta extractFieldsB
  rw [hp]

/-- Reduction of `extractFieldsB` once the classification guard and the
first `'+'` position are known. -/
theorem extractFieldsB_some_plus {row : List Char} {p : Nat}
    (hl : jsTestStartLetterCI row = true)
    (hp : row.findIdx? (fun c => c == '+') = some p) :
    extractFieldsB row =
      (if row.length < 47 then none else
      if digitsLen 9 (jsSubstring row 1 10) then
        if digitsLen 4 (jsSubstring row 10 14) then
          if digitsToNat (jsSubstring row 10 14) < 1900 ∨
              2100 < digitsToNat (jsSubstring row 10 14) then none else
          if digitsLen 2 (jsSubstring row 14 16) then
            if digitsToNat (jsSubstring row 14 16) < 1 ∨
                12 < digitsToNat (jsSubstring row 14 16) then none else
            if digitsLen 2 (jsSubstring row 16 18) then
              if digitsToNat (jsSubstring row 16 18) < 1 ∨
                  31 < digitsToNat (jsSubstring row 16 18) then none else
              if p - 9 < 18 then none else
              if digitsLen 9 (jsSubstring row (p - 9) p) then
                if 0 < (jsSubstring row 18 (p - 9)).length ∧
                    ¬ (jsSubstring row 18 (p - 9)).all Char.isDigit
                  then none else
                if digitsLen 10
                    (jsSubstring row (p + 1) (p + 11)) then
                  if digitsLen 9 (row.drop (row.length - 9)) then
                    some { rowType := row.headD ' ',
                           businessNumber := jsSubstring row 1 10,
                           year := digitsToNat (jsSubstring row 10 14),
                           month := digitsToNat (jsSubstring row 14 16),
                           day := digitsToNat (jsSubstring row 16 18),
                           receiptNumber := stripLeadingZeros
                             (jsSubstring row 18 (p - 9)),
                           vatAmount := digitsToNat
                             (jsSubstring row (p - 9) p),
                           sumWithoutVat := digitsToNat
                             (jsSubstring row (p + 1) (p + 11)),
                           allocationNumber := row.drop (row.length - 9) }
                  else none
                else none
              else none
            else none
          else none
        else none
      else none) := by
  delta extractFieldsB
  rw [hp, if_pos hl]

/-- Inversion: a successful Variant B extraction pins down every guard and
the resulting fields in terms of the first `'+'` position. -/
theorem extractFieldsB_eq_some {row : List Char} {f : RowFields}
    (h : extractFieldsB row = some f) :
    jsTestStartLetterCI row = true ∧
    ∃ p, row.findIdx? (fun c => c == '+') = some p ∧
      47 ≤ row.length ∧
      digitsLen 9 (jsSubstring row 1 10) = true ∧
      digitsLen 4 (jsSubstring row 10 14) = true ∧
      digitsLen 2 (jsSubstring row 14 16) = true ∧
      digitsLen 2 (jsSubstring row 16 18) = true ∧
      ¬ (digitsToNat (jsSubstring row 10 14) < 1900 ∨
        2100 < digitsToNat (jsSubstring row 10 14)) ∧
      ¬ (digitsToNat (jsSubstring row 14 16) < 1 ∨
        12 < digitsToNat (jsSubstring row 14 16)) ∧
      ¬ (digitsToNat (jsSubstring row 16 18) < 1 ∨
        31 < digitsToNat (jsSubstring row 16 18)) ∧
      27 ≤ p ∧
      digitsLen 9 (jsSubstring row (p - 9) p) = true ∧
      (jsSubstring row 18 (p - 9) = [] ∨
        (jsSubstring row 18 (p - 9)).all Char.isDigit = true) ∧
      digitsLen 10 (jsSubstring row (p + 1) (p + 11)) = true ∧
      digitsLen 9 (row.drop (row.length - 9)) = true ∧
      f = { rowType := row.headD ' ',
            businessNumber := jsSubstring row 1 10,
            year := digitsToNat (jsSubstring row 10 14),
            month := digitsToNat (jsSubstring row 14 16),
            day := digitsToNat (jsSubstring row 16 18),
            receiptNumber := stripLeadingZeros (jsSubstring row 18 (p - 9)),
            vatAmount := digitsToNat (jsSubstring row (p - 9) p),
            sumWithoutVat := digitsToNat (jsSubstring row (p + 1) (p + 11)),
            allocationNumber := row.drop (row.length - 9) } := by
  by_cases hl : jsTestStartLetterCI row = true
  · cases hp : row.findIdx? (fun c => c == '+') with
    | none =>
      rw [extractFieldsB_plus_none hp, if_pos hl] at h
      exact Option.noConfusion h
    | some p =>
      rw [extractFieldsB_some_plus hl hp] at h
      refine ⟨hl, p, rfl, ?_⟩
      by_cases h47 : row.length < 47
      · rw [if_pos h47] at h; exact Option.noConfusion h
      rw [if_neg h47] at h
      by_cases hb : digitsLen 9 (jsSubstring row 1 10) = true
      swap
      · rw [if_neg hb] at h; exact Option.noConfusion h
      rw [if_pos hb] at h
      by_cases hy : digitsLen 4 (jsSubstring row 10 14) = true
      swap
      · rw [if_neg hy] at h; exact Option.noConfusion h
      rw [if_pos hy] at h
      by_cases hyr : digitsToNat (jsSubstring row 10 14) < 1900 ∨
          2100 < digitsToNat (jsSubstring row 10 14)
      · rw [if_pos hyr] at h; exact Option.noConfusion h
      rw [if_neg hyr] at h
      by_cases hmo : digitsLen 2 (jsSubstring row 14 16) = true
      swap
      · rw [if_neg hmo] at h; exact Option.noConfusion h
      rw [if_pos hmo] at h
      by_cases hmor : digitsToNat (jsSubstring row 14 16) < 1 ∨
          12 < digitsToNat (jsSubstring row 14 16)
      · rw [if_pos hmor] at h; exact Option.noConfusion h
      rw [if_neg hmor] at h
      by_cases hd : digitsLen 2 (jsSubstring row 16 18) = true
      swap
      · rw [if_neg hd] at h; exact Option.noConfusion h
      rw [if_pos hd] at h
      by_cases hdr : digitsToNat (jsSubstring row 16 18) < 1 ∨
          31 < digitsToNat (jsSubstring row 16 18)
      · rw [if_pos hdr] at h; exact Option.noConfusion h
      rw [if_neg hdr] at h
      by_cases hvs : p - 9 < 18
      · rw [if_pos hvs] at h; exact Option.noConfusion h
      rw [if_neg hvs] at h
      by_cases hvat : digitsLen 9 (jsSubstring row (p - 9) p) = true
      swap
      · rw [if_neg hvat] at h; exact Option.noConfusion h
      rw [if_pos hvat] at h
      by_cases hrc : 0 < (jsSubstring row 18 (p - 9)).length ∧
          ¬ (jsSubstring row 18 (p - 9)).all Char.isDigit
      · rw [if_pos hrc] at h; exact Option.noConfusion h
      rw [if_neg hrc] at h
      by_cases hsum : digitsLen 10 (jsSubstring row (p + 1) (p + 11)) = true
      swap
      · rw [if_neg hsum] at h; exact Option.noConfusion h
      rw [if_pos hsum] at h
      by_cases halloc : digitsLen 9 (row.drop (row.length - 9)) = true
      swap
      · rw [if_neg halloc] at h; exact Option.noConfusion h
      rw [if_pos halloc] at h
      have hrc' : jsSubstring row 18 (p - 9) = [] ∨
          (jsSubstring row 18 (p - 9)).all Char.isDigit = true := by
        rw [not_and_or] at hrc
        rcases hrc with hc | hc
        · left
          rw [Nat.not_lt, Nat.le_zero, List.length_eq_zero] at hc
          exact hc
        · right
          rwa [Decidable.not_not] at hc
      exact ⟨by omega, hb, hy, hmo, hd, hyr, hmor, hdr, by omega, hvat, hrc',
        hsum, halloc, (Option.some.inj h).symm⟩
  · rw [Bool.not_eq_true] at hl
    rw [extractFieldsB_not_letter hl] at h
    exact Option.noConfusion h

/-- Construction: when all Variant B guards hold, extraction succeeds with
the indicated fields. -/
theorem extractFieldsB_intro {row : List Char} {p : Nat}
    (hl : jsTestStartLetterCI row = true)
    (hp : row.findIdx? (fun c => c == '+') = some p)
    (h47 : ¬ row.length < 47)
    (hb : digitsLen 9 (jsSubstring row 1 10) = true)
    (hy : digitsLen 4 (jsSubstring row 10 14) = true)
    (hyr : ¬ (digitsToNat (jsSubstring row 10 14) < 1900 ∨
      2100 < digitsToNat (jsSubstring row 10 14)))
    (hmo : digitsLen 2 (jsSubstring row 14 16) = true)
    (hmor : ¬ (digitsToNat (jsSubstring row 14 16) < 1 ∨
      12 < digitsToNat (jsSubstring row 14 16)))
    (hd : digitsLen 2 (jsSubstring row 16 18) = true)
    (hdr : ¬ (digitsToNat (jsSubstring row 16 18) < 1 ∨
      31 < digitsToNat (jsSubstring row 16 18)))
    (hvs : ¬ p - 9 < 18)
    (hvat : digitsLen 9 (jsSubstring row (p - 9) p) = true)
    (hrc : ¬ (0 < (jsSubstring row 18 (p - 9)).length ∧
      ¬ (jsSubstring row 18 (p - 9)).all Char.isDigit))
    (hsum : digitsLen 10 (jsSubstring row (p + 1) (p + 11)) = true)
    (halloc : digitsLen 9 (row.drop (row.length - 9)) = true) :
    extractFieldsB row =
      some { rowType := row.headD ' ',
             businessNumber := jsSubstring row 1 10,
             year := digitsToNat (jsSubstring row 10 14),
             month := digitsToNat (jsSubstring row 14 16),
             day := digitsToNat (jsSubstring row 16 18),
             receiptNumber := stripLeadingZeros (jsSubstring row 18 (p - 9)),
             vatAmount := digitsToNat (jsSubstring row (p - 9) p),
             sumWithoutVat := digitsToNat (jsSubstring row (p + 1) (p + 11)),
             allocationNumber := row.drop (row.length - 9) } := by
  rw [extractFieldsB_some_plus hl hp, if_neg h47, if_pos hb, if_pos hy,
    if_neg hyr, if_pos hmo, if_neg hmor, if_pos hd, if_neg hdr, if_neg hvs,
    if_pos hvat, if_neg hrc, if_pos hsum, if_pos halloc]

/-! ## Lemmas: field extraction (Variant A) -/

/-- Reduction of `extractFieldsA` when a precondition fails. -/
theorem extractFieldsA_fail {row : List Char}
    (h : jsTestStartTCI row = false ∨ (row.length == 60) = false ∨
      (row.getD 40 '\x00' == '+') = false) :
    extractFieldsA row = none := by
  delta extractFieldsA
  rcases h with h | h | h
  · rw [h]; rfl
  · rw [h]
    by_cases ht : jsTestStartTCI row = true
    · rw [ht]; rfl
    · rw [Bool.not_eq_true] at ht; rw [ht]; rfl
  · rw [h]
    by_cases ht : jsTestStartTCI row = true
    · rw [ht]
      by_cases h60 : (row.length == 60) = true
      · rw [h60]; rfl
      · rw [Bool.not_eq_true] at h60; rw [h60]; rfl
    · rw [Bool.not_eq_true] at ht; rw [ht]; rfl

/-- Reduction of `extractFieldsA` once the three classification guards
hold. -/
theorem extractFieldsA_cascade {row : List Char}
    (ht : jsTestStartTCI row = true) (h60 : (row.length == 60) = true)
    (hplus : (row.getD 40 '\x00' == '+') = true) :
    extractFieldsA row =
      (if digitsLen 9 (jsSubstring row 1 10) then
        if digitsLen 4 (jsSubstring row 10 14) then
          if digitsToNat (jsSubstring row 10 14) < 1900 ∨
              2100 < digitsToNat (jsSubstring row 10 14) then none else
          if digitsLen 2 (jsSubstring row 14 16) then
            if digitsToNat (jsSubstring row 14 16) < 1 ∨
                12 < digitsToNat (jsSubstring row 14 16) then none else
            if digitsLen 2 (jsSubstring row 16 18) then
              if digitsToNat (jsSubstring row 16 18) < 1 ∨
                  31 < digitsToNat (jsSubstring row 16 18) then none else
              if digitsLen 9 (jsSubstring row 22 31) then
                if digitsLen 9 (jsSubstring row 31 40) then
                  if digitsLen 10 (jsSubstring row 41 51) then
                    if digitsLen 9 (jsSubstring row 51 60) then
                      some { rowType := row.headD ' ',
                             businessNumber := jsSubstring row 1 10,
                             year := digitsToNat (jsSubstring row 10 14),
                             month := digitsToNat (jsSubstring row 14 16),
                             day := digitsToNat (jsSubstring row 16 18),
                             receiptNumber := stripLeadingZeros
                               (jsSubstring row 22 31),
                             vatAmount := digitsToNat (jsSubstring row 31 40),
                             sumWithoutVat := digitsToNat
                               (jsSubstring row 41 51),
                             allocationNumber := jsSubstring row 51 60 }
                    else none
                  else none
                else none
              else none
            else none
          else none
        else none
      else none) := by
  delta extractFieldsA
  rw [ht, h60, hplus]
  rfl

/-- Inversion for Variant A extraction. -/
theorem extractFieldsA_eq_some {row : List Char} {f : RowFields}
    (h : extractFieldsA row = some f) :
    jsTestStartTCI row = true ∧ row.length = 60 ∧
      row.getD 40 '\x00' = '+' ∧
      digitsLen 9 (jsSubstring row 1 10) = true ∧
      digitsLen 4 (jsSubstring row 10 14) = true ∧
      digitsLen 2 (jsSubstring row 14 16) = true ∧
      digitsLen 2 (jsSubstring row 16 18) = true ∧
      ¬ (digitsToNat (jsSubstring row 10 14) < 1900 ∨
        2100 < digitsToNat (jsSubstring row 10 14)) ∧
      ¬ (digitsToNat (jsSubstring row 14 16) < 1 ∨
        12 < digitsToNat (jsSubstring row 14 16)) ∧
      ¬ (digitsToNat (jsSubstring row 16 18) < 1 ∨
        31 < digitsToNat (jsSubstring row 16 18)) ∧
      digitsLen 9 (jsSubstring row 22 31) = true ∧
      digitsLen 9 (jsSubstring row 31 40) = true ∧
      digitsLen 10 (jsSubstring row 41 51) = true ∧
      digitsLen 9 (jsSubstring row 51 60) = true ∧
      f = { rowType := row.headD ' ',
            businessNumber := jsSubstring row 1 10,
            year := digitsToNat (jsSubstring row 10 14),
            month := digitsToNat (jsSubstring row 14 16),
            day := digitsToNat (jsSubstring row 16 18),
            receiptNumber := stripLeadingZeros (jsSubstring row 22 31),
            vatAmount := digitsToNat (jsSubstring row 31 40),
            sumWithoutVat := digitsToNat (jsSubstring row 41 51),
            allocationNumber := jsSubstring row 51 60 } := by
  by_cases ht : jsTestStartTCI row = true
  swap
  · rw [Bool.not_eq_true] at ht
    rw [extractFieldsA_fail (Or.inl ht)] at h
    exact Option.noConfusion h
  by_cases h60 : (row.length == 60) = true
  swap
  · rw [Bool.not_eq_true] at h60
    rw [extractFieldsA_fail (Or.inr (Or.inl h60))] at h
    exact Option.noConfusion h
  by_cases hplus : (row.getD 40 '\x00' == '+') = true
  swap
  · rw [Bool.not_eq_true] at hplus
    rw [extractFieldsA_fail (Or.inr (Or.inr hplus))] at h
    exact Option.noConfusion h
  rw [extractFieldsA_cascade ht h60 hplus] at h
  refine ⟨ht, by simpa using h60, by simpa using hplus, ?_⟩
  by_cases hb : digitsLen 9 (jsSubstring row 1 10) = true
  swap
  · rw [if_neg hb] at h; exact Option.noConfusion h
  rw [if_pos hb] at h
  by_cases hy : digitsLen 4 (jsSubstring row 10 14) = true
  swap
  · rw [if_neg hy] at h; exact Option.noConfusion h
  rw [if_pos hy] at h
  by_cases hyr : digitsToNat (jsSubstring row 10 14) < 1900 ∨
      2100 < digitsToNat (jsSubstring row 10 14)
  · rw [if_pos hyr] at h; exact Option.noConfusion h
  rw [if_neg hyr] at h
  by_cases hmo : digitsLen 2 (jsSubstring row 14 16) = true
  swap
  · rw [if_neg hmo] at h; exact Option.noConfusion h
  rw [if_pos hmo] at h
  by_cases hmor : digitsToNat (jsSubstring row 14 16) < 1 ∨
      12 < digitsToNat (jsSubstring row 14 16)
  · rw [if_pos hmor] at h; exact Option.noConfusion h
  rw [if_neg hmor] at h
  by_cases hd : digitsLen 2 (jsSubstring row 16 18) = true
  swap
  · rw [if_neg hd] at h; exact Option.noConfusion h
  rw [if_pos hd] at h
  by_cases hdr : digitsToNat (jsSubstring row 16 18) < 1 ∨
      31 < digitsToNat (jsSubstring row 16 18)
  · rw [if_pos hdr] at h; exact Option.noConfusion h
  rw [if_neg hdr] at h
  by_cases hrcp : digitsLen 9 (jsSubstring row 22 31) = true
  swap
  · rw [if_neg hrcp] at h; exact Option.noConfusion h
  rw [if_pos hrcp] at h
  by_cases hvat : digitsLen 9 (jsSubstring row 31 40) = true
  swap
  · rw [if_neg hvat] at h; exact Option.noConfusion h
  rw [if_pos hvat] at h
  by_cases hsum : digitsLen 10 (jsSubstring row 41 51) = true
  swap
  · rw [if_neg hsum] at h; exact Option.noConfusion h
  rw [if_pos hsum] at h
  by_cases halloc : digitsLen 9 (jsSubstring row 51 60) = true
  swap
  · rw [if_neg halloc] at h; exact Option.noConfusion h
  rw [if_pos halloc] at h
  exact ⟨hb, hy, hmo, hd, hyr, hmor, hdr, hrcp, hvat, hsum, halloc,
    (Option.some.inj h).symm⟩

/-- Construction for Variant A extraction. -/
theorem extractFieldsA_intro {row : List Char}
    (ht : jsTestStartTCI row = true) (h60 : (row.length == 60) = true)
    (hplus : (row.getD 40 '\x00' == '+') = true)
    (hb : digitsLen 9 (jsSubstring row 1 10) = true)
    (hy : digitsLen 4 (jsSubstring row 10 14) = true)
    (hyr : ¬ (digitsToNat (jsSubstring row 10 14) < 1900 ∨
      2100 < digitsToNat (jsSubstring row 10 14)))
    (hmo : digitsLen 2 (jsSubstring row 14 16) = true)
    (hmor : ¬ (digitsToNat (jsSubstring row 14 16) < 1 ∨
      12 < digitsToNat (jsSubstring row 14 16)))
    (hd : digitsLen 2 (jsSubstring row 16 18) = true)
    (hdr : ¬ (digitsToNat (jsSubstring row 16 18) < 1 ∨
      31 < digitsToNat (jsSubstring row 16 18)))
    (hrcp : digitsLen 9 (jsSubstring row 22 31) = true)
    (hvat : digitsLen 9 (jsSubstring row 31 40) = true)
    (hsum : digitsLen 10 (jsSubstring row 41 51) = true)
    (halloc : digitsLen 9 (jsSubstring row 51 60) = true) :
    extractFieldsA row =
      some { rowType := row.headD ' ',
             businessNumber := jsSubstring row 1 10,
             year := digitsToNat (jsSubstring row 10 14),
             month := digitsToNat (jsSubstring row 14 16),
             day := digitsToNat (jsSubstring row 16 18),
             receiptNumber := stripLeadingZeros (jsSubstring row 22 31),
             vatAmount := digitsToNat (jsSubstring row 31 40),
             sumWithoutVat := digitsToNat (jsSubstring row 41 51),
             allocationNumber := jsSubstring row 51 60 } := by
  rw [extractFieldsA_cascade ht h60 hplus, if_pos hb, if_pos hy, if_neg hyr,
    if_pos hmo, if_neg hmor, if_pos hd, if_neg hdr, if_pos hrcp, if_pos hvat,
    if_pos hsum, if_pos halloc]

/-! ## Lemmas: parseFileCore bridges -/

theorem parseFileCore_receipts (isRow : List Char → Bool)
    (extract : List Char → Option RowFields) (errMsg : Nat → String)
    (emptyMsg : String) (content : List Char) :
    (parseFileCore isRow extract errMsg emptyMsg content).receipts =
      (parseLoop isRow extract errMsg (splitLines content) 1 0).receipts := by
  simp only [parseFileCore]
  split <;> rfl

theorem parseFileCore_lineMap (isRow : List Char → Bool)
    (extract : List Char → Option RowFields) (errMsg : Nat → String)
    (emptyMsg : String) (content : List Char) :
    (parseFileCore isRow extract errMsg emptyMsg content).lineMap =
      (parseLoop isRow extract errMsg (splitLines content) 1 0).lineMap := by
  simp only [parseFileCore]
  split <;> rfl

theorem parseFileCore_errors_of_nonempty (isRow : List Char → Bool)
    (extract : List Char → Option RowFields) (errMsg : Nat → String)
    (emptyMsg : String) (content : List Char)
    (h : ¬((parseLoop isRow extract errMsg (splitLines content) 1 0).receipts = [] ∧
      (parseLoop isRow extract errMsg (splitLines content) 1 0).errors = [])) :
    (parseFileCore isRow extract errMsg emptyMsg content).errors =
      (parseLoop isRow extract errMsg (splitLines content) 1 0).errors := by
  simp only [parseFileCore]
  split
  · rename_i hcond
    rw [Bool.and_eq_true, List.isEmpty_iff, List.isEmpty_iff] at hcond
    exact absurd hcond h
  · rfl

/-! ## Claim theorems -/

/-- C5 counterexample: the Variant B classifier also accepts a line
starting with a *lowercase* letter, so "uppercase letter" in the claim is
wrong: `isReceiptRow "a+"` is `true` although `'a'` is not uppercase. -/
theorem C5_counterexample :
    isReceiptRow ['a', '+'] = true ∧ 'a'.isUpper = false := by decide

/-- C5 (amended): `isReceiptRow` (Variant B) returns true iff the line
starts with an ASCII letter of either case (the regex `/^[A-Z]/i` is
case-insensitive) and contains `'+'` somewhere. -/
theorem C5_amended (line : List Char) :
    isReceiptRow line = true ↔
      ((∃ c, line.head? = some c ∧
          (('A' ≤ c ∧ c ≤ 'Z') ∨ ('a' ≤ c ∧ c ≤ 'z'))) ∧ '+' ∈ line) := by
  cases line with
  | nil => simp [isReceiptRow, jsTestStartLetterCI]
  | cons c rest =>
    simp only [isReceiptRow, jsTestStartLetterCI, Bool.and_eq_true,
      Bool.or_eq_true, decide_eq_true_eq, List.head?_cons, Option.some.injEq,
      List.contains, List.elem_eq_mem, decide_eq_true_eq]
    constructor
    · rintro ⟨h₁, h₂⟩
      exact ⟨⟨c, rfl, h₁⟩, h₂⟩
    · rintro ⟨⟨d, rfl, h₁⟩, h₂⟩
      exact ⟨h₁, h₂⟩

/-- C6 counterexample: the Variant A classifier also accepts a marker in
*lowercase* (`/^T/i`): a 60-character line starting with `'t'` with `'+'`
at offset 40 is classified as a record line. -/
theorem C6_counterexample :
    isReceiptRowA
      ("t000000000000000000000000000000000000000+0000000000000000000".toList) =
        true ∧
    ("t000000000000000000000000000000000000000+0000000000000000000".toList).head? =
        some 't' ∧ 't' ≠ 'T' := by decide

/-- C6 (amended): the Variant A classifier returns true iff the length is
exactly 60, the first character is `'T'` **or** `'t'` (case-insensitive
marker), and offset 40 holds `'+'`; violating any of the three
disqualifies the line. -/
theorem C6_amended (line : List Char) :
    isReceiptRowA line = true ↔
      (line.length = 60 ∧
        (∃ c, line.head? = some c ∧ (c = 'T' ∨ c = 't')) ∧
        line.getD 40 '\x00' = '+') := by
  cases line with
  | nil => simp [isReceiptRowA, jsTestStartTCI]
  | cons c rest =>
    simp only [isReceiptRowA, jsTestStartTCI, Bool.and_eq_true,
      Bool.or_eq_true, beq_iff_eq, List.head?_cons, Option.some.injEq]
    constructor
    · rintro ⟨⟨h₁, h₂⟩, h₃⟩
      exact ⟨h₂, ⟨c, rfl, h₁⟩, h₃⟩
    · rintro ⟨h₂, ⟨d, rfl, h₁⟩, h₃⟩
      exact ⟨⟨h₁, h₂⟩, h₃⟩

/-- C4 counterexample: `updateAllocation` classifies the *untrimmed* line,
while the parser classifies the trimmed form.  On `" A+"` the parser's
classification (of the trimmed line) succeeds, yet the update fails with
the `NotARecordLine` error. -/
theorem C4_counterexample :
    updateAllocation (" A+".toList) 1 ("000000042".toList) =
        .error .notARecordLine ∧
      isReceiptRow (trimList ((splitLines (" A+".toList)).getD 0 [])) =
        true := by decide

/-- C4 (amended): for both variants, `updateAllocation` fails with
`InvalidAllocation` exactly when the new value is not 9 digits; otherwise
with `LineNotFound` exactly when the line number is outside the normalized
file's line range; otherwise with `NotARecordLine` exactly when the
addressed line — taken verbatim (untrimmed) from the normalized text, which
can disagree with the parser's classification of the trimmed form — does
not classify; in every other case it succeeds. -/
theorem C4_amended :
    (∀ (content : List Char) (L : Nat) (alloc : List Char),
      (updateAllocation content L alloc = .error .invalidAllocation ↔
        digitsLen 9 alloc = false) ∧
      (updateAllocation content L alloc = .error .lineNotFound ↔
        (digitsLen 9 alloc = true ∧
          (L < 1 ∨ (splitLines content).length < L))) ∧
      (updateAllocation content L alloc = .error .notARecordLine ↔
        (digitsLen 9 alloc = true ∧ 1 ≤ L ∧
          L ≤ (splitLines content).length ∧
          isReceiptRow ((splitLines content).getD (L - 1) []) = false)) ∧
      ((∃ out, updateAllocation content L alloc = .ok out) ↔
        (digitsLen 9 alloc = true ∧ 1 ≤ L ∧
          L ≤ (splitLines content).length ∧
          isReceiptRow ((splitLines content).getD (L - 1) []) = true))) ∧
    (∀ (content : List Char) (L : Nat) (alloc : List Char),
      (updateAllocationA content L alloc = .error .invalidAllocation ↔
        digitsLen 9 alloc = false) ∧
      (updateAllocationA content L alloc = .error .lineNotFound ↔
        (digitsLen 9 alloc = true ∧
          (L < 1 ∨ (splitLines content).length < L))) ∧
      (updateAllocationA content L alloc = .error .notARecordLine ↔
        (digitsLen 9 alloc = true ∧ 1 ≤ L ∧
          L ≤ (splitLines content).length ∧
          isReceiptRowA ((splitLines content).getD (L - 1) []) = false)) ∧
      ((∃ out, updateAllocationA content L alloc = .ok out) ↔
        (digitsLen 9 alloc = true ∧ 1 ≤ L ∧
          L ≤ (splitLines content).length ∧
          isReceiptRowA ((splitLines content).getD (L - 1) []) = true))) := by
  refine ⟨fun content L alloc => ⟨?_, ?_, ?_, ?_⟩,
    fun content L alloc => ⟨?_, ?_, ?_, ?_⟩⟩
  · exact updateCore_error_invalid_iff
  · exact updateCore_error_notfound_iff
  · exact updateCore_error_notrecord_iff
  · exact updateCore_ok_exists_iff
  · exact updateCore_error_invalid_iff
  · exact updateCore_error_notfound_iff
  · exact updateCore_error_notrecord_iff
  · exact updateCore_ok_exists_iff

/-- C7: for both variants, a parse never returns an empty record list
together with an empty error list; and when no line at all is a candidate,
the error list is exactly the single synthetic "no valid rows" message. -/
theorem C7_no_empty_success :
    (∀ content : List Char,
      ((parseFile content).receipts = [] → (parseFile content).errors ≠ []) ∧
      ((∀ raw ∈ splitLines content, trimList raw = [] ∨
          isReceiptRow (trimList raw) = false) →
        (parseFile content).receipts = [] ∧
        (parseFile content).errors = [noRowsMsgB])) ∧
    (∀ content : List Char,
      ((parseFileA content).receipts = [] → (parseFileA content).errors ≠ []) ∧
      ((∀ raw ∈ splitLines content, trimList raw = [] ∨
          isReceiptRowA (trimList raw) = false) →
        (parseFileA content).receipts = [] ∧
        (parseFileA content).errors = [noRowsMsgA])) := by
  constructor
  · intro content
    constructor
    · intro hrec
      rw [parseFile, parseFileCore_receipts] at hrec
      rw [parseFile]
      simp only [parseFileCore]
      split
      · simp
      · rename_i hcond
        rw [Bool.and_eq_true, List.isEmpty_iff, List.isEmpty_iff] at hcond
        rw [not_and_or] at hcond
        rcases hcond with hc | hc
        · exact absurd hrec hc
        · exact hc
    · intro hnone
      have hloop := parseLoop_empty_of_no_cand isReceiptRow extractFieldsB
        invalidRowMsgB (splitLines content) 1 0 hnone
      rw [parseFile]
      simp only [parseFileCore, hloop]
      exact ⟨rfl, rfl⟩
  · intro content
    constructor
    · intro hrec
      rw [parseFileA, parseFileCore_receipts] at hrec
      rw [parseFileA]
      simp only [parseFileCore]
      split
      · simp
      · rename_i hcond
        rw [Bool.and_eq_true, List.isEmpty_iff, List.isEmpty_iff] at hcond
        rw [not_and_or] at hcond
        rcases hcond with hc | hc
        · exact absurd hrec hc
        · exact hc
    · intro hnone
      have hloop := parseLoop_empty_of_no_cand isReceiptRowA extractFieldsA
        invalidRowMsgA (splitLines content) 1 0 hnone
      rw [parseFileA]
      simp only [parseFileCore, hloop]
      exact ⟨rfl, rfl⟩

/-- C7 witness: a file with no candidate lines at all produces zero records
and exactly the synthetic message, in both variants. -/
theorem C7_witness :
    ((parseFile ("xyz".toList)).receipts = [] ∧
      (parseFile ("xyz".toList)).errors = [noRowsMsgB]) ∧
    ((parseFileA ("xyz".toList)).receipts = [] ∧
      (parseFileA ("xyz".toList)).errors = [noRowsMsgA]) :=
  ⟨(C7_no_empty_success.1 ("xyz".toList)).2 (by decide),
    (C7_no_empty_success.2 ("xyz".toList)).2 (by decide)⟩

theorem take_append_no_char {orig alloc : List Char} {n : Nat} {c : Char}
    (ho : c ∉ orig) (ha : c ∉ alloc) : c ∉ orig.take n ++ alloc := by
  intro hmem
  rcases List.mem_append.mp hmem with hm | hm
  · exact ho (List.take_subset n orig hm)
  · exact ha hm

theorem getD_mem_of_lt {ls : List (List Char)} {i : Nat}
    (h : i < ls.length) : ls.getD i [] ∈ ls := by
  rw [List.getD_eq_getElem?_getD, List.getElem?_eq_getElem h,
    Option.getD_some]
  exact List.getElem_mem h

/-- C1 counterexample: a successful update strips the input's leading
byte-order mark, so the byte content of an untouched line (line 1 here)
differs between input and output — the claim's byte-for-byte locality
fails. -/
theorem C1_counterexample :
    updateAllocation ("﻿x\nA+".toList) 2 ("000000042".toList) =
        .ok ("x\n000000042".toList) ∧
      (("﻿x\nA+".toList).splitOn '\n').getD 0 [] ≠
        (("x\n000000042".toList).splitOn '\n').getD 0 [] := by decide

/-- C1 (amended): locality holds relative to the *normalized* input (after
leading-BOM removal and newline normalization): for both variants, a
successful update leaves every normalized input line other than line `L`
unchanged in the output, and preserves the line count.  Byte-for-byte
identity with the raw input fails in general because the rewrite drops a
leading BOM and rewrites every line terminator to one uniform style. -/
theorem C1_locality_amended :
    (∀ (content : List Char) (L : Nat) (alloc out : List Char),
      updateAllocation content L alloc = .ok out →
      ((normalizeEOL out).splitOn '\n').length = (splitLines content).length ∧
      ∀ i, i ≠ L - 1 →
        ((normalizeEOL out).splitOn '\n').getD i [] =
          (splitLines content).getD i []) ∧
    (∀ (content : List Char) (L : Nat) (alloc out : List Char),
      updateAllocationA content L alloc = .ok out →
      ((normalizeEOL out).splitOn '\n').length = (splitLines content).length ∧
      ∀ i, i ≠ L - 1 →
        ((normalizeEOL out).splitOn '\n').getD i [] =
          (splitLines content).getD i []) := by
  constructor
  · intro content L alloc out h
    obtain ⟨hd, h1, h2, -, -⟩ := updateCore_eq_ok h
    have hdig : alloc.all Char.isDigit = true := by
      rw [digitsLen, Bool.and_eq_true] at hd
      exact hd.2
    obtain ⟨hcr, hnl⟩ := digits_no_cr_nl hdig
    have horig : (splitLines content).getD (L - 1) [] ∈ splitLines content :=
      getD_mem_of_lt (by omega)
    exact updateCore_locality
      ⟨take_append_no_char (splitLines_no_cr content _ horig) hcr,
        take_append_no_char (splitLines_no_nl content _ horig) hnl⟩ h
  · intro content L alloc out h
    obtain ⟨hd, h1, h2, -, -⟩ := updateCore_eq_ok h
    have hdig : alloc.all Char.isDigit = true := by
      rw [digitsLen, Bool.and_eq_true] at hd
      exact hd.2
    obtain ⟨hcr, hnl⟩ := digits_no_cr_nl hdig
    have horig : (splitLines content).getD (L - 1) [] ∈ splitLines content :=
      getD_mem_of_lt (by omega)
    exact updateCore_locality
      ⟨take_append_no_char (splitLines_no_cr content _ horig) hcr,
        take_append_no_char (splitLines_no_nl content _ horig) hnl⟩ h

/-- C1 witness: locality instantiated on a concrete two-line file. -/
theorem C1_witness :
    updateAllocation ("x\nA+".toList) 2 ("000000042".toList) =
        .ok ("x\n000000042".toList) ∧
      ((normalizeEOL ("x\n000000042".toList)).splitOn '\n').getD 0 [] =
        (splitLines ("x\nA+".toList)).getD 0 [] :=
  ⟨by decide,
    (C1_locality_amended.1 ("x\nA+".toList) 2 ("000000042".toList)
      ("x\n000000042".toList) (by decide)).2 0 (by decide)⟩

/-- C10: Variant B extraction resolves the separator as the *first* `'+'`
only: whenever that first occurrence sits below index 27 the whole line is
rejected (regardless of any later `'+'`), and on success the tax, receipt
and net fields are sliced relative to that first occurrence. -/
theorem C10_first_plus (row : List Char) (p : Nat)
    (hp : row.findIdx? (fun c => c == '+') = some p) :
    (p < 27 → extractFieldsB row = none) ∧
    (∀ f, extractFieldsB row = some f →
      f.vatAmount = digitsToNat (jsSubstring row (p - 9) p) ∧
      f.receiptNumber = stripLeadingZeros (jsSubstring row 18 (p - 9)) ∧
      f.sumWithoutVat = digitsToNat (jsSubstring row (p + 1) (p + 11))) := by
  constructor
  · intro hp27
    by_cases hl : jsTestStartLetterCI row = true
    · rw [extractFieldsB_some_plus hl hp]
      by_cases h47 : row.length < 47
      · rw [if_pos h47]
      rw [if_neg h47]
      by_cases hb : digitsLen 9 (jsSubstring row 1 10) = true
      swap
      · rw [if_neg hb]
      rw [if_pos hb]
      by_cases hy : digitsLen 4 (jsSubstring row 10 14) = true
      swap
      · rw [if_neg hy]
      rw [if_pos hy]
      by_cases hyr : digitsToNat (jsSubstring row 10 14) < 1900 ∨
          2100 < digitsToNat (jsSubstring row 10 14)
      · rw [if_pos hyr]
      rw [if_neg hyr]
      by_cases hmo : digitsLen 2 (jsSubstring row 14 16) = true
      swap
      · rw [if_neg hmo]
      rw [if_pos hmo]
      by_cases hmor : digitsToNat (jsSubstring row 14 16) < 1 ∨
          12 < digitsToNat (jsSubstring row 14 16)
      · rw [if_pos hmor]
      rw [if_neg hmor]
      by_cases hd : digitsLen 2 (jsSubstring row 16 18) = true
      swap
      · rw [if_neg hd]
      rw [if_pos hd]
      by_cases hdr : digitsToNat (jsSubstring row 16 18) < 1 ∨
          31 < digitsToNat (jsSubstring row 16 18)
      · rw [if_pos hdr]
      rw [if_neg hdr]
      rw [if_pos (show p - 9 < 18 by omega)]
    · rw [Bool.not_eq_true] at hl
      exact extractFieldsB_not_letter hl
  · intro f hf
    obtain ⟨-, p', hp', -, -, -, -, -, -, -, -, -, -, -, -, -, hfeq⟩ :=
      extractFieldsB_eq_some hf
    rw [hp] at hp'
    obtain rfl := Option.some.inj hp'
    subst hfeq
    exact ⟨rfl, rfl, rfl⟩

/-- C10 witness: a 47-character line whose first `'+'` is at index 26 is
rejected outright. -/
theorem C10_witness :
    ("A0000000000000000000000000+00000000000000000000".toList).findIdx?
        (fun c => c == '+') = some 26 ∧
      extractFieldsB
        ("A0000000000000000000000000+00000000000000000000".toList) = none :=
  ⟨by decide,
    (C10_first_plus ("A0000000000000000000000000+00000000000000000000".toList)
      26 (by decide)).1 (by decide)⟩

/-- C9: for both variants — record `i` (0-based) carries `rowIndex = i`;
the line map sends `i` to that record's 1-based line number; line numbers
are strictly increasing; the record count equals the number of successful
candidate lines (so a failed candidate consumes no index); and whenever any
candidate exists the error list has exactly one entry per failed
candidate. -/
theorem C9_indexing :
    (∀ content : List Char,
      (∀ (i : Nat) (r : IReceipt), (parseFile content).receipts[i]? = some r → r.rowIndex = i) ∧
      (∀ (i : Nat) (r : IReceipt), (parseFile content).receipts[i]? = some r →
        List.lookup i (parseFile content).lineMap = some r.lineNumber) ∧
      (∀ (i j : Nat) (ri rj : IReceipt), i < j → (parseFile content).receipts[i]? = some ri →
        (parseFile content).receipts[j]? = some rj →
        ri.lineNumber < rj.lineNumber) ∧
      (parseFile content).receipts.length =
        (splitLines content).countP (candOk isReceiptRow extractFieldsB) ∧
      ((splitLines content).countP (candOk isReceiptRow extractFieldsB) ≠ 0 ∨
          (splitLines content).countP (candFail isReceiptRow extractFieldsB) ≠ 0 →
        (parseFile content).errors.length =
          (splitLines content).countP (candFail isReceiptRow extractFieldsB))) ∧
    (∀ content : List Char,
      (∀ (i : Nat) (r : IReceipt), (parseFileA content).receipts[i]? = some r → r.rowIndex = i) ∧
      (∀ (i : Nat) (r : IReceipt), (parseFileA content).receipts[i]? = some r →
        List.lookup i (parseFileA content).lineMap = some r.lineNumber) ∧
      (∀ (i j : Nat) (ri rj : IReceipt), i < j → (parseFileA content).receipts[i]? = some ri →
        (parseFileA content).receipts[j]? = some rj →
        ri.lineNumber < rj.lineNumber) ∧
      (parseFileA content).receipts.length =
        (splitLines content).countP (candOk isReceiptRowA extractFieldsA) ∧
      ((splitLines content).countP (candOk isReceiptRowA extractFieldsA) ≠ 0 ∨
          (splitLines content).countP (candFail isReceiptRowA extractFieldsA) ≠ 0 →
        (parseFileA content).errors.length =
          (splitLines content).countP (candFail isReceiptRowA extractFieldsA))) := by
  constructor
  · intro content
    refine ⟨?_, ?_, ?_, ?_, ?_⟩
    · intro i r h
      rw [parseFile, parseFileCore_receipts] at h
      have := parseLoop_rowIndex isReceiptRow extractFieldsB invalidRowMsgB
        (splitLines content) 1 0 i r h
      omega
    · intro i r h
      rw [parseFile, parseFileCore_receipts] at h
      rw [parseFile, parseFileCore_lineMap]
      have := parseLoop_lookup isReceiptRow extractFieldsB invalidRowMsgB
        (splitLines content) 1 0 i r h
      simpa using this
    · intro i j ri rj hij hi hj
      rw [parseFile, parseFileCore_receipts] at hi hj
      have hp := parseLoop_pairwise isReceiptRow extractFieldsB invalidRowMsgB
        (splitLines content) 1 0
      rw [List.pairwise_iff_getElem] at hp
      obtain ⟨hilt, hieq⟩ := List.getElem?_eq_some_iff.mp hi
      obtain ⟨hjlt, hjeq⟩ := List.getElem?_eq_some_iff.mp hj
      have := hp i j hilt hjlt hij
      rwa [hieq, hjeq] at this
    · rw [parseFile, parseFileCore_receipts]
      exact parseLoop_length_receipts isReceiptRow extractFieldsB
        invalidRowMsgB (splitLines content) 1 0
    · intro hcond
      rw [parseFile, parseFileCore_errors_of_nonempty]
      · exact parseLoop_length_errors isReceiptRow extractFieldsB
          invalidRowMsgB (splitLines content) 1 0
      · rintro ⟨hr, he⟩
        rcases hcond with hc | hc
        · rw [← parseLoop_length_receipts isReceiptRow extractFieldsB
            invalidRowMsgB (splitLines content) 1 0, hr] at hc
          exact hc rfl
        · rw [← parseLoop_length_errors isReceiptRow extractFieldsB
            invalidRowMsgB (splitLines content) 1 0, he] at hc
          exact hc rfl
  · intro content
    refine ⟨?_, ?_, ?_, ?_, ?_⟩
    · intro i r h
      rw [parseFileA, parseFileCore_receipts] at h
      have := parseLoop_rowIndex isReceiptRowA extractFieldsA invalidRowMsgA
        (splitLines content) 1 0 i r h
      omega
    · intro i r h
      rw [parseFileA, parseFileCore_receipts] at h
      rw [parseFileA, parseFileCore_lineMap]
      have := parseLoop_lookup isReceiptRowA extractFieldsA invalidRowMsgA
        (splitLines content) 1 0 i r h
      simpa using this
    · intro i j ri rj hij hi hj
      rw [parseFileA, parseFileCore_receipts] at hi hj
      have hp := parseLoop_pairwise isReceiptRowA extractFieldsA invalidRowMsgA
        (splitLines content) 1 0
      rw [List.pairwise_iff_getElem] at hp
      obtain ⟨hilt, hieq⟩ := List.getElem?_eq_some_iff.mp hi
      obtain ⟨hjlt, hjeq⟩ := List.getElem?_eq_some_iff.mp hj
      have := hp i j hilt hjlt hij
      rwa [hieq, hjeq] at this
    · rw [parseFileA, parseFileCore_receipts]
      exact parseLoop_length_receipts isReceiptRowA extractFieldsA
        invalidRowMsgA (splitLines content) 1 0
    · intro hcond
      rw [parseFileA, parseFileCore_errors_of_nonempty]
      · exact parseLoop_length_errors isReceiptRowA extractFieldsA
          invalidRowMsgA (splitLines content) 1 0
      · rintro ⟨hr, he⟩
        rcases hcond with hc | hc
        · rw [← parseLoop_length_receipts isReceiptRowA extractFieldsA
            invalidRowMsgA (splitLines content) 1 0, hr] at hc
          exact hc rfl
        · rw [← parseLoop_length_errors isReceiptRowA extractFieldsA
            invalidRowMsgA (splitLines content) 1 0, he] at hc
          exact hc rfl

/-- C9 witness: on the three-line example file, record 1 has row index 1,
the line map sends 1 to its line number 3, and the single failed candidate
line contributes exactly one error. -/
theorem C9_witness :
    (parseFile exampleContentC9).receipts[1]? = some exampleReceiptC9 ∧
    exampleReceiptC9.rowIndex = 1 ∧
    List.lookup 1 (parseFile exampleContentC9).lineMap =
      some exampleReceiptC9.lineNumber ∧
    (parseFile exampleContentC9).errors.length =
      (splitLines exampleContentC9).countP
        (candFail isReceiptRow extractFieldsB) :=
  ⟨by decide,
    (C9_indexing.1 exampleContentC9).1 1 exampleReceiptC9 (by decide),
    (C9_indexing.1 exampleContentC9).2.1 1 exampleReceiptC9 (by decide),
    (C9_indexing.1 exampleContentC9).2.2.2.2 (Or.inl (by decide))⟩

/-! ## Lemmas: idempotence of the update -/

theorem modifyHead_stripBOM_id {ls : List (List Char)}
    (h : ∀ x, ls[0]? = some x → x.head? ≠ some '﻿') :
    ls.modifyHead stripBOM = ls := by
  cases ls with
  | nil => rfl
  | cons x rest =>
    simp only [List.modifyHead]
    rw [stripBOM_of_head_ne x (h x (by simp))]

/-- The output's terminator choice agrees with the input's on the output
itself, so re-joining the same lines reproduces the output. -/
theorem intercalate_eolOf_out {content out : List Char}
    {ls' : List (List Char)}
    (hout : out = List.intercalate (eolOf content) ls')
    (hcr' : ∀ l ∈ ls', '\r' ∉ l) (hnl' : ∀ l ∈ ls', '\n' ∉ l) :
    List.intercalate (eolOf out) ls' = out := by
  by_cases hW : hasCRLF content = true
  · rw [eolOf, if_pos hW] at hout
    cases ls' with
    | nil => rw [hout, intercalate_nil_list, intercalate_nil_list]
    | cons x rest =>
      cases rest with
      | nil => rw [hout, intercalate_single, intercalate_single]
      | cons y ys =>
        have : hasCRLF out = true := by
          rw [hout]
          exact hasCRLF_intercalate_crlf x y ys
        rw [eolOf, if_pos this, hout]
  · rw [Bool.not_eq_true] at hW
    rw [eolOf, hW, if_neg (by simp)] at hout
    have hnocr : '\r' ∉ out := by
      rw [hout]
      exact not_mem_intercalate_of_not_mem ls' hcr' (by simp)
    have : hasCRLF out = false := hasCRLF_eq_false_of_no_cr out hnocr
    rw [eolOf, this, if_neg (by simp), hout]

/-- Generic idempotence of `updateCore`: if the update succeeded, the
rewritten line still classifies, the rewrite is stable on it, and no
first-line BOM interferes, then running the same update on the output
returns the output unchanged. -/
theorem updateCore_idempotent {isRow : List Char → Bool}
    {rewrite : List Char → List Char → List Char}
    {content : List Char} {L : Nat} {alloc out : List Char}
    (h : updateCore isRow rewrite content L alloc = .ok out)
    (hmcr : '\r' ∉ rewrite ((splitLines content).getD (L - 1) []) alloc)
    (hmnl : '\n' ∉ rewrite ((splitLines content).getD (L - 1) []) alloc)
    (hrow2 : isRow (rewrite ((splitLines content).getD (L - 1) []) alloc) = true)
    (hbomm : (rewrite ((splitLines content).getD (L - 1) []) alloc).head? ≠
      some '﻿')
    (hbom0 : ((splitLines content).getD 0 []).head? ≠ some '﻿')
    (hm2 : rewrite (rewrite ((splitLines content).getD (L - 1) []) alloc)
      alloc = rewrite ((splitLines content).getD (L - 1) []) alloc) :
    updateCore isRow rewrite out L alloc = .ok out := by
  obtain ⟨hd, h1, h2, hrow, hout⟩ := updateCore_eq_ok h
  set ls := splitLines content with hls
  set m := rewrite (ls.getD (L - 1) []) alloc with hm
  have hL1 : L - 1 < ls.length := by omega
  have hcr' : ∀ l ∈ ls.set (L - 1) m, '\r' ∉ l := by
    intro l hl
    rcases List.mem_or_eq_of_mem_set hl with hl' | rfl
    · exact splitLines_no_cr content l hl'
    · exact hmcr
  have hnl' : ∀ l ∈ ls.set (L - 1) m, '\n' ∉ l := by
    intro l hl
    rcases List.mem_or_eq_of_mem_set hl with hl' | rfl
    · exact splitLines_no_nl content l hl'
    · exact hmnl
  have hne' : ls.set (L - 1) m ≠ [] := by
    rw [Ne, List.set_eq_nil_iff]
    exact splitLines_ne_nil content
  have hsep : eolOf content = ['\n'] ∨ eolOf content = ['\r', '\n'] := by
    rw [eolOf]
    split
    · right; rfl
    · left; rfl
  have hsplit : splitLines out = ls.set (L - 1) m := by
    rw [hout, splitLines_intercalate _ _ hne' hcr' hnl' hsep]
    apply modifyHead_stripBOM_id
    intro x hx
    by_cases hL : L - 1 = 0
    · rw [hL] at hx
      rw [List.getElem?_set_self (by omega)] at hx
      obtain rfl := Option.some.inj hx
      exact hbomm
    · rw [List.getElem?_set_ne hL] at hx
      have h0 : (0 : Nat) < ls.length := by omega
      rw [List.getElem?_eq_getElem h0] at hx
      obtain rfl := Option.some.inj hx
      have : ls.getD 0 [] = ls[0] := by
        rw [List.getD_eq_getElem?_getD, List.getElem?_eq_getElem h0,
          Option.getD_some]
      rw [← this]
      exact hbom0
  have hgetm : (splitLines out).getD (L - 1) [] = m := by
    rw [hsplit, List.getD_eq_getElem?_getD,
      List.getElem?_set_self (by simpa using hL1), Option.getD_some]
  simp only [updateCore]
  rw [if_pos hd]
  rw [if_neg (by rw [hsplit]; simp only [List.length_set]; omega)]
  rw [hgetm, if_pos hrow2, hsplit, hm2, List.set_set]
  rw [intercalate_eolOf_out hout hcr' hnl']

theorem letter_ne_bom {c : Char}
    (h : ('A' ≤ c ∧ c ≤ 'Z') ∨ ('a' ≤ c ∧ c ≤ 'z')) : c ≠ '﻿' := by
  rintro rfl
  rcases h with ⟨h₁, h₂⟩ | ⟨h₁, h₂⟩ <;> revert h₁ h₂ <;> decide

theorem jsTest_letter_inv {u : List Char} (h : jsTestStartLetterCI u = true) :
    ∃ c rest, u = c :: rest ∧
      (('A' ≤ c ∧ c ≤ 'Z') ∨ ('a' ≤ c ∧ c ≤ 'z')) := by
  cases u with
  | nil => simp [jsTestStartLetterCI] at h
  | cons c rest =>
    refine ⟨c, rest, rfl, ?_⟩
    simpa [jsTestStartLetterCI, Bool.or_eq_true, decide_eq_true_eq] using h

theorem jsTest_t_inv {u : List Char} (h : jsTestStartTCI u = true) :
    ∃ c rest, u = c :: rest ∧ (c = 'T' ∨ c = 't') := by
  cases u with
  | nil => simp [jsTestStartTCI] at h
  | cons c rest =>
    refine ⟨c, rest, rfl, ?_⟩
    simpa [jsTestStartTCI, Bool.or_eq_true, beq_iff_eq] using h

theorem digitsLen_length {n : Nat} {l : List Char}
    (h : digitsLen n l = true) : l.length = n := by
  rw [digitsLen, Bool.and_eq_true] at h
  exact beq_iff_eq.mp h.1

theorem digitsLen_all {n : Nat} {l : List Char}
    (h : digitsLen n l = true) : l.all Char.isDigit = true := by
  rw [digitsLen, Bool.and_eq_true] at h
  exact h.2

/-- Variant B idempotence, given that the addressed line's first `'+'`
ends more than 9 characters before the end of the line. -/
theorem updateAllocation_idem_B {content : List Char} {L : Nat}
    {alloc out : List Char}
    (h : updateAllocation content L alloc = .ok out)
    (hbom0 : ((splitLines content).getD 0 []).head? ≠ some '﻿')
    (hplus : ∀ p, ((splitLines content).getD (L - 1) []).findIdx?
        (fun c => c == '+') = some p →
      p + 9 < ((splitLines content).getD (L - 1) []).length) :
    updateAllocation out L alloc = .ok out := by
  obtain ⟨hd, h1, h2, hrow, -⟩ := updateCore_eq_ok h
  set u := (splitLines content).getD (L - 1) [] with hu
  rw [isReceiptRow, Bool.and_eq_true] at hrow
  obtain ⟨hletter, hcontains⟩ := hrow
  obtain ⟨c, rest, hcons, hcrange⟩ := jsTest_letter_inv hletter
  have hplusmem : '+' ∈ u := by
    rw [List.contains, List.elem_eq_mem, decide_eq_true_eq] at hcontains
    exact hcontains
  rcases hfp : u.findIdx? (fun c => c == '+') with - | p
  · rw [List.findIdx?_eq_none_iff] at hfp
    have := hfp '+' hplusmem
    simp at this
  have hp9 : p + 9 < u.length := hplus p hfp
  obtain ⟨hplt, hpP, -⟩ := List.findIdx?_eq_some_iff_getElem.mp hfp
  have hpchar : u[p] = '+' := by simpa using hpP
  have hl9 : alloc.length = 9 := digitsLen_length hd
  have hdigits := digitsLen_all hd
  obtain ⟨hacr, hanl⟩ := digits_no_cr_nl hdigits
  have humem : u ∈ splitLines content := getD_mem_of_lt (by omega)
  have hucr := splitLines_no_cr content u humem
  have hunl := splitLines_no_nl content u humem
  have hk1 : 1 ≤ u.length - 9 := by omega
  obtain ⟨m', hconsm⟩ : ∃ m', rewriteLineB u alloc = c :: m' := by
    rw [rewriteLineB, hcons,
      List.take_cons (show 0 < (c :: rest).length - 9 by
        simp only [← hcons]; omega)]
    exact ⟨_, rfl⟩
  have hmhead : (rewriteLineB u alloc).head? = some c := by
    rw [hconsm]
    rfl
  have htklen : (u.take (u.length - 9)).length = u.length - 9 := by
    rw [List.length_take]
    omega
  have hmlen : (rewriteLineB u alloc).length = u.length := by
    rw [rewriteLineB, List.length_append, htklen, hl9]
    omega
  have hplusm : '+' ∈ rewriteLineB u alloc := by
    rw [rewriteLineB]
    apply List.mem_append.mpr
    left
    apply List.getElem?_mem
    rw [List.getElem?_take_of_lt (show p < u.length - 9 by omega),
      List.getElem?_eq_getElem hplt, hpchar]
  have hrow2 : isReceiptRow (rewriteLineB u alloc) = true := by
    rw [isReceiptRow, Bool.and_eq_true]
    constructor
    · rw [hconsm]
      show (decide ('A' ≤ c ∧ c ≤ 'Z') || decide ('a' ≤ c ∧ c ≤ 'z')) = true
      rcases hcrange with hr | hr <;> simp [hr]
    · rw [List.contains, List.elem_eq_mem, decide_eq_true_eq]
      exact hplusm
  have hm2 : rewriteLineB (rewriteLineB u alloc) alloc =
      rewriteLineB u alloc := by
    conv_lhs => rw [rewriteLineB]
    rw [hmlen]
    have : (rewriteLineB u alloc).take (u.length - 9) =
        u.take (u.length - 9) := by
      rw [rewriteLineB, List.take_append_of_le_length htklen.ge,
        List.take_take, Nat.min_self]
    rw [this, rewriteLineB]
  exact updateCore_idempotent h
    (take_append_no_char hucr hacr) (take_append_no_char hunl hanl)
    hrow2 (by rw [hmhead]; simp [letter_ne_bom hcrange]) hbom0 hm2

/-- Variant A idempotence: the rewritten 60-character line always
reclassifies, so only the first-line BOM caveat remains. -/
theorem updateAllocationA_idem {content : List Char} {L : Nat}
    {alloc out : List Char}
    (h : updateAllocationA content L alloc = .ok out)
    (hbom0 : ((splitLines content).getD 0 []).head? ≠ some '﻿') :
    updateAllocationA out L alloc = .ok out := by
  obtain ⟨hd, h1, h2, hrow, -⟩ := updateCore_eq_ok h
  set u := (splitLines content).getD (L - 1) [] with hu
  rw [isReceiptRowA, Bool.and_eq_true, Bool.and_eq_true] at hrow
  obtain ⟨⟨ht, hlen⟩, hplus⟩ := hrow
  have hlen60 : u.length = 60 := beq_iff_eq.mp hlen
  have hplus' : u.getD 40 '\x00' = '+' := by simpa using hplus
  obtain ⟨c, rest, hcons, hcrange⟩ := jsTest_t_inv ht
  have hl9 : alloc.length = 9 := digitsLen_length hd
  have hdigits := digitsLen_all hd
  obtain ⟨hacr, hanl⟩ := digits_no_cr_nl hdigits
  have humem : u ∈ splitLines content := getD_mem_of_lt (by omega)
  have hucr := splitLines_no_cr content u humem
  have hunl := splitLines_no_nl content u humem
  have htklen : (u.take 51).length = 51 := by
    rw [List.length_take]
    omega
  have hmlen : (rewriteLineA u alloc).length = 60 := by
    rw [rewriteLineA, List.length_append, htklen, hl9]
  have hmhead : (rewriteLineA u alloc).head? = some c := by
    rw [rewriteLineA, hcons, List.take_cons (by omega)]
    rfl
  have hm40 : (rewriteLineA u alloc).getD 40 '\x00' = '+' := by
    rw [rewriteLineA, List.getD_eq_getElem?_getD,
      List.getElem?_append_left (show (40 : Nat) < (u.take 51).length by
        rw [htklen]; omega),
      List.getElem?_take_of_lt (show (40 : Nat) < 51 by omega),
      List.getElem?_eq_getElem (show (40 : Nat) < u.length by omega)]
    have : u[40] = u.getD 40 '\x00' := by
      rw [List.getD_eq_getElem?_getD, List.getElem?_eq_getElem (by omega),
        Option.getD_some]
    rw [Option.getD_some, this, hplus']
  have hrow2 : isReceiptRowA (rewriteLineA u alloc) = true := by
    rw [isReceiptRowA, Bool.and_eq_true, Bool.and_eq_true]
    refine ⟨⟨?_, beq_iff_eq.mpr hmlen⟩, beq_iff_eq.mpr hm40⟩
    obtain ⟨m', hm'⟩ : ∃ m', rewriteLineA u alloc = c :: m' := by
      rw [rewriteLineA, hcons, List.take_cons (by omega)]
      exact ⟨_, rfl⟩
    rw [hm']
    show (c == 'T' || c == 't') = true
    rcases hcrange with hr | hr <;> simp [hr]
  have hm2 : rewriteLineA (rewriteLineA u alloc) alloc =
      rewriteLineA u alloc := by
    conv_lhs => rw [rewriteLineA]
    have : (rewriteLineA u alloc).take 51 = u.take 51 := by
      rw [rewriteLineA, List.take_append_of_le_length htklen.ge,
        List.take_take, Nat.min_self]
    rw [this, rewriteLineA]
  have hbomm : (rewriteLineA u alloc).head? ≠ some '﻿' := by
    rw [hmhead]
    rcases hcrange with rfl | rfl <;> decide
  exact updateCore_idempotent h
    (take_append_no_char hucr hacr) (take_append_no_char hunl hanl)
    hrow2 hbomm hbom0 hm2

/-- C8 counterexample: idempotence fails as stated.  On the (degenerate
but accepted) record line `"A+"` the first update succeeds and returns
`"000000042"`, but re-applying the update to that output throws
`NotARecordLine`, so `update (update text) ≠ update text`. -/
theorem C8_counterexample :
    updateAllocation ("A+".toList) 1 ("000000042".toList) =
        .ok ("000000042".toList) ∧
      updateAllocation ("000000042".toList) 1 ("000000042".toList) =
        .error .notARecordLine := by decide

/-- C8 (amended): re-applying a successful update with the same line and
allocation returns the same text, provided the normalized text's first
line does not itself begin with a BOM character (only possible with a
doubled BOM) and — for Variant B — the addressed line's first `'+'` ends
more than 9 characters before the end of the line (otherwise the rewrite
destroys the marker or the separator and the second update throws). -/
theorem C8_idempotent_amended :
    (∀ (content : List Char) (L : Nat) (alloc out : List Char),
      updateAllocation content L alloc = .ok out →
      ((splitLines content).getD 0 []).head? ≠ some '﻿' →
      (∀ p, ((splitLines content).getD (L - 1) []).findIdx?
          (fun c => c == '+') = some p →
        p + 9 < ((splitLines content).getD (L - 1) []).length) →
      updateAllocation out L alloc = .ok out) ∧
    (∀ (content : List Char) (L : Nat) (alloc out : List Char),
      updateAllocationA content L alloc = .ok out →
      ((splitLines content).getD 0 []).head? ≠ some '﻿' →
      updateAllocationA out L alloc = .ok out) :=
  ⟨fun _ _ _ _ h hb hp => updateAllocation_idem_B h hb hp,
    fun _ _ _ _ h hb => updateAllocationA_idem h hb⟩

/-- C8 witness: on a well-formed 56-character record line, updating twice
with the same allocation yields the once-updated text. -/
theorem C8_witness :
    updateAllocation exampleRowB 1 ("111111111".toList) =
        .ok ("A12345678920251102000000014000000100+0000000200111111111".toList) ∧
      updateAllocation
        ("A12345678920251102000000014000000100+0000000200111111111".toList) 1
        ("111111111".toList) =
        .ok ("A12345678920251102000000014000000100+0000000200111111111".toList) :=
  ⟨by decide,
    C8_idempotent_amended.1 exampleRowB 1 ("111111111".toList)
      ("A12345678920251102000000014000000100+0000000200111111111".toList)
      (by decide) (by decide)
      (fun p hp => by
        have h36 : ((splitLines exampleRowB).getD 0 []).findIdx?
            (fun c => c == '+') = some 36 := by decide
        rw [h36] at hp
        obtain rfl := Option.some.inj hp
        decide)⟩

/-- C3 counterexample: for an input whose only line is a valid record line
followed by a trailing space, the stored `rawRow` is the *trimmed* line,
not the original untrimmed line as the claim states. -/
theorem C3_counterexample :
    (parseFile (exampleRowB ++ [' '])).receipts.map IReceipt.rawRow =
        [exampleRowB] ∧
      ((exampleRowB ++ [' ']).splitOn '\n').getD 0 [] = exampleRowB ++ [' '] ∧
      exampleRowB ≠ exampleRowB ++ [' '] := by decide

/-- C3 (amended): every record's `raw_text` equals the **trimmed** form of
its source line — the same string used for classification and extraction —
which coincides with the original line exactly when the line carries no
surrounding whitespace. -/
theorem C3_rawRow_amended (content : List Char) :
    ∀ r ∈ (parseFile content).receipts,
      r.rawRow = trimList ((splitLines content).getD (r.lineNumber - 1) []) := by
  intro r hr
  rw [parseFile, parseFileCore_receipts] at hr
  obtain ⟨k, hk, hln, -, -, f, -, hr'⟩ :=
    parseLoop_mem_inv isReceiptRow extractFieldsB invalidRowMsgB
      (splitLines content) 1 0 r hr
  have hk' : r.lineNumber - 1 = k := by omega
  rw [hk', hr']
  rfl

/-- C3 witness: the amended fact instantiated on a concrete record. -/
theorem C3_witness :
    exampleReceiptC9 ∈ (parseFile exampleContentC9).receipts ∧
      exampleReceiptC9.rawRow = trimList
        ((splitLines exampleContentC9).getD
          (exampleReceiptC9.lineNumber - 1) []) :=
  ⟨by decide,
    C3_rawRow_amended exampleContentC9 exampleReceiptC9 (by decide)⟩

/-! ## Lemmas: round-trip support -/

theorem jsSubstring_length (l : List Char) (a b : Nat) :
    (jsSubstring l a b).length = min b l.length - a := by
  simp [jsSubstring]

theorem jsSubstring_append_left {xs ys : List Char} {a b : Nat}
    (h : b ≤ xs.length) :
    jsSubstring (xs ++ ys) a b = jsSubstring xs a b := by
  rw [jsSubstring, jsSubstring, List.take_append_of_le_length h]

theorem jsSubstring_take_append {xs ys : List Char} {a b n : Nat}
    (h1 : b ≤ n) (h2 : n ≤ xs.length) :
    jsSubstring (xs.take n ++ ys) a b = jsSubstring xs a b := by
  rw [jsSubstring, jsSubstring,
    List.take_append_of_le_length (by rw [List.length_take]; omega),
    List.take_take, Nat.min_eq_left h1]

theorem findIdx?_eq_of_agree {pred : Char → Bool} {u m : List Char} {p : Nat}
    (h : u.findIdx? pred = some p) (hplt : p < m.length)
    (hagree : ∀ j, j ≤ p → m[j]? = u[j]?) : m.findIdx? pred = some p := by
  rw [List.findIdx?_eq_some_iff_getElem] at h ⊢
  obtain ⟨hlt, hp, hprev⟩ := h
  refine ⟨hplt, ?_, ?_⟩
  · have hag := hagree p le_rfl
    rw [List.getElem?_eq_getElem hplt, List.getElem?_eq_getElem hlt] at hag
    rw [Option.some.inj hag]
    exact hp
  · intro j hj
    have hag := hagree j (Nat.le_of_lt hj)
    rw [List.getElem?_eq_getElem (Nat.lt_trans hj hplt),
      List.getElem?_eq_getElem (Nat.lt_trans hj hlt)] at hag
    rw [Option.some.inj hag]
    exact hprev j hj

/-- A string whose head is a non-whitespace character and which ends in a
nonempty run of digits is unchanged by trimming. -/
theorem trimList_eq_self_head_digits {x alloc : List Char}
    (hhead : ∀ c, (x ++ alloc).head? = some c → isJsWhitespace c = false)
    (hne : alloc ≠ []) (hdig : alloc.all Char.isDigit = true) :
    trimList (x ++ alloc) = x ++ alloc := by
  apply trimList_eq_self hhead
  intro c hc
  rw [List.getLast?_append] at hc
  rw [List.getLast?_eq_getLast alloc hne, Option.or_some] at hc
  obtain rfl := Option.some.inj hc.symm
  have hmem : alloc.getLast hne ∈ alloc := List.getLast_mem hne
  rw [List.all_eq_true] at hdig
  exact not_ws_of_digit (hdig _ hmem)

/-- Elements of `modifyHead stripBOM ls` at a given index: index 0 may lose
a BOM, later indices are untouched. -/
theorem modifyHead_getD_of_head_ok {ls : List (List Char)} {i : Nat}
    (h : i = 0 → ∀ x, ls[0]? = some x → stripBOM x = x) :
    (ls.modifyHead stripBOM).getD i [] = ls.getD i [] := by
  cases ls with
  | nil => simp
  | cons x rest =>
    cases i with
    | zero =>
      simp only [List.modifyHead_cons, List.getD_eq_getElem?_getD,
        List.getElem?_cons_zero, Option.getD_some]
      exact h rfl x (by simp)
    | succ j =>
      simp only [List.modifyHead_cons, List.getD_eq_getElem?_getD,
        List.getElem?_cons_succ]

theorem modifyHead_length (f : List Char → List Char)
    (ls : List (List Char)) : (ls.modifyHead f).length = ls.length := by
  cases ls <;> simp

/-- Variant B round trip: under the no-overlap condition (the line extends
at least 20 characters past its first `'+'`), re-parsing the updated text
yields a record at line `L` with the new allocation and all other fields
unchanged. -/
theorem roundtrip_B {content : List Char} {L : Nat} {alloc out : List Char}
    {r : IReceipt}
    (hupd : updateAllocation content L alloc = .ok out)
    (hr : r ∈ (parseFile content).receipts) (hrL : r.lineNumber = L)
    (hplus20 : ∀ p, ((splitLines content).getD (L - 1) []).findIdx?
        (fun c => c == '+') = some p →
      p + 20 ≤ ((splitLines content).getD (L - 1) []).length) :
    ∃ r' ∈ (parseFile out).receipts, r'.lineNumber = L ∧
      r'.allocationNumber = alloc ∧ r'.rowType = r.rowType ∧
      r'.businessNumber = r.businessNumber ∧ r'.year = r.year ∧
      r'.month = r.month ∧ r'.day = r.day ∧
      r'.receiptNumber = r.receiptNumber ∧ r'.vatAmount = r.vatAmount ∧
      r'.sumWithoutVat = r.sumWithoutVat := by
  obtain ⟨hd, h1, h2, hrowu, hout⟩ := updateCore_eq_ok hupd
  rw [parseFile, parseFileCore_receipts] at hr
  obtain ⟨k, hk, hln, htne, htrow, f, hf, hreq⟩ :=
    parseLoop_mem_inv isReceiptRow extractFieldsB invalidRowMsgB
      (splitLines content) 1 0 r hr
  have hkL : k = L - 1 := by omega
  rw [hkL] at htne htrow hf hreq
  obtain ⟨htl, p, hpt, ht47, htb, hty, htmo, htd, htyr, htmor, htdr, htp27,
    htvat, htrc, htsum, htalloc, hfeq⟩ := extractFieldsB_eq_some hf
  rw [isReceiptRow, Bool.and_eq_true] at hrowu
  obtain ⟨huletter, -⟩ := hrowu
  obtain ⟨c, rest, hcons, hcrange⟩ := jsTest_letter_inv huletter
  have hheadws : ∀ c', ((splitLines content).getD (L - 1) []).head? =
      some c' → isJsWhitespace c' = false := by
    intro c' hc'
    rw [hcons] at hc'
    obtain rfl := Option.some.inj hc'
    exact not_ws_of_letter hcrange
  obtain ⟨hudecomp, hwss⟩ := trimList_decomp_of_head hheadws
  have htlen_ge : p + 11 ≤ (trimList ((splitLines content).getD (L - 1) [])).length := by
    have hlen10 := digitsLen_length htsum
    rw [jsSubstring_length] at hlen10
    omega
  have hulen_t : (trimList ((splitLines content).getD (L - 1) [])).length ≤
      ((splitLines content).getD (L - 1) []).length := by
    conv_rhs => rw [hudecomp]
    rw [List.length_append]
    omega
  have hpu : ((splitLines content).getD (L - 1) []).findIdx?
      (fun c => c == '+') = some p := by
    apply findIdx?_eq_of_agree hpt (by omega)
    intro j hj
    conv_lhs => rw [hudecomp]
    rw [List.getElem?_append_left (show j <
      (trimList ((splitLines content).getD (L - 1) [])).length by omega)]
  have hp20 : p + 20 ≤ ((splitLines content).getD (L - 1) []).length :=
    hplus20 p hpu
  have hl9 : alloc.length = 9 := digitsLen_length hd
  have htku : ((((splitLines content).getD (L - 1) []).take
      (((splitLines content).getD (L - 1) []).length - 9))).length =
      ((splitLines content).getD (L - 1) []).length - 9 := by
    rw [List.length_take]
    omega
  have hlenm : (rewriteLineB ((splitLines content).getD (L - 1) []) alloc).length =
      ((splitLines content).getD (L - 1) []).length := by
    rw [rewriteLineB, List.length_append, htku, hl9]
    omega
  have hmagree : ∀ j, j < ((splitLines content).getD (L - 1) []).length - 9 →
      (rewriteLineB ((splitLines content).getD (L - 1) []) alloc)[j]? =
        ((splitLines content).getD (L - 1) [])[j]? := by
    intro j hj
    rw [rewriteLineB, List.getElem?_append_left (by rw [htku]; omega),
      List.getElem?_take_of_lt hj]
  have hpm : (rewriteLineB ((splitLines content).getD (L - 1) []) alloc).findIdx?
      (fun c => c == '+') = some p := by
    apply findIdx?_eq_of_agree hpu (by rw [hlenm]; omega)
    intro j hj
    exact hmagree j (by omega)
  have hsub : ∀ a b : Nat, b ≤ ((splitLines content).getD (L - 1) []).length - 9 →
      b ≤ (trimList ((splitLines content).getD (L - 1) [])).length →
      jsSubstring (rewriteLineB ((splitLines content).getD (L - 1) []) alloc) a b =
        jsSubstring (trimList ((splitLines content).getD (L - 1) [])) a b := by
    intro a b hb1 hb2
    rw [rewriteLineB, jsSubstring_take_append hb1 (by omega)]
    conv_lhs => rw [hudecomp]
    rw [jsSubstring_append_left hb2]
  have hmalloc : (rewriteLineB ((splitLines content).getD (L - 1) []) alloc).drop
      ((rewriteLineB ((splitLines content).getD (L - 1) []) alloc).length - 9) =
      alloc := by
    rw [hlenm, rewriteLineB, List.drop_left' htku]
  obtain ⟨mtail, hmcons⟩ : ∃ mtail,
      rewriteLineB ((splitLines content).getD (L - 1) []) alloc = c :: mtail := by
    rw [rewriteLineB, hcons,
      List.take_cons (show 0 < (c :: rest).length - 9 by
        simp only [← hcons]; omega)]
    exact ⟨_, rfl⟩
  have hlm : jsTestStartLetterCI
      (rewriteLineB ((splitLines content).getD (L - 1) []) alloc) = true := by
    rw [hmcons]
    show (decide ('A' ≤ c ∧ c ≤ 'Z') || decide ('a' ≤ c ∧ c ≤ 'z')) = true
    rcases hcrange with hr' | hr' <;> simp [hr']
  have hallocne : alloc ≠ [] := by
    intro hc
    rw [hc] at hl9
    simp at hl9
  have htrimm : trimList (rewriteLineB ((splitLines content).getD (L - 1) []) alloc) =
      rewriteLineB ((splitLines content).getD (L - 1) []) alloc := by
    rw [rewriteLineB]
    apply trimList_eq_self_head_digits ?_ hallocne (digitsLen_all hd)
    intro c' hc'
    rw [← rewriteLineB, hmcons] at hc'
    obtain rfl := Option.some.inj hc'
    exact not_ws_of_letter hcrange
  have hfm := extractFieldsB_intro hlm hpm
    (show ¬ (rewriteLineB ((splitLines content).getD (L - 1) []) alloc).length < 47 by
      rw [hlenm]; omega)
    (by rw [hsub 1 10 (by omega) (by omega)]; exact htb)
    (by rw [hsub 10 14 (by omega) (by omega)]; exact hty)
    (by rw [hsub 10 14 (by omega) (by omega)]; exact htyr)
    (by rw [hsub 14 16 (by omega) (by omega)]; exact htmo)
    (by rw [hsub 14 16 (by omega) (by omega)]; exact htmor)
    (by rw [hsub 16 18 (by omega) (by omega)]; exact htd)
    (by rw [hsub 16 18 (by omega) (by omega)]; exact htdr)
    (show ¬ p - 9 < 18 by omega)
    (by rw [hsub (p - 9) p (by omega) (by omega)]; exact htvat)
    (by
      rw [hsub 18 (p - 9) (by omega) (by omega)]
      rcases htrc with hc | hc
      · rw [hc]
        simp
      · rw [not_and_or]
        right
        rw [Decidable.not_not]
        exact hc)
    (by rw [hsub (p + 1) (p + 11) (by omega) (by omega)]; exact htsum)
    (by rw [hmalloc]; exact hd)
  have hthead : (trimList ((splitLines content).getD (L - 1) [])).headD ' ' = c := by
    have htne' : trimList ((splitLines content).getD (L - 1) []) ≠ [] := htne
    have : ((splitLines content).getD (L - 1) []).head? = some c := by
      rw [hcons]; rfl
    rw [hudecomp, List.head?_append] at this
    cases hh : (trimList ((splitLines content).getD (L - 1) [])).head? with
    | none =>
      rw [List.head?_eq_none_iff] at hh
      exact absurd hh htne'
    | some d =>
      rw [hh, Option.or_some] at this
      obtain rfl := Option.some.inj this
      rw [List.headD_eq_head?_getD, hh]
      rfl
  have hheadm : (rewriteLineB ((splitLines content).getD (L - 1) []) alloc).headD ' ' =
      (trimList ((splitLines content).getD (L - 1) [])).headD ' ' := by
    rw [hmcons, hthead]
    rfl
  rw [hheadm, hsub 1 10 (by omega) (by omega), hsub 10 14 (by omega) (by omega),
    hsub 14 16 (by omega) (by omega), hsub 16 18 (by omega) (by omega),
    hsub 18 (p - 9) (by omega) (by omega), hsub (p - 9) p (by omega) (by omega),
    hsub (p + 1) (p + 11) (by omega) (by omega), hmalloc] at hfm
  have hcr' : ∀ l ∈ (splitLines content).set (L - 1)
      (rewriteLineB ((splitLines content).getD (L - 1) []) alloc), '\r' ∉ l := by
    intro l hl
    rcases List.mem_or_eq_of_mem_set hl with hl' | rfl
    · exact splitLines_no_cr content l hl'
    · exact take_append_no_char
        (splitLines_no_cr content _ (getD_mem_of_lt (by omega)))
        (digits_no_cr_nl (digitsLen_all hd)).1
  have hnl' : ∀ l ∈ (splitLines content).set (L - 1)
      (rewriteLineB ((splitLines content).getD (L - 1) []) alloc), '\n' ∉ l := by
    intro l hl
    rcases List.mem_or_eq_of_mem_set hl with hl' | rfl
    · exact splitLines_no_nl content l hl'
    · exact take_append_no_char
        (splitLines_no_nl content _ (getD_mem_of_lt (by omega)))
        (digits_no_cr_nl (digitsLen_all hd)).2
  have hne' : (splitLines content).set (L - 1)
      (rewriteLineB ((splitLines content).getD (L - 1) []) alloc) ≠ [] := by
    rw [Ne, List.set_eq_nil_iff]
    exact splitLines_ne_nil content
  have hsep : eolOf content = ['\n'] ∨ eolOf content = ['\r', '\n'] := by
    rw [eolOf]
    split
    · right; rfl
    · left; rfl
  have hlines_out : splitLines out =
      ((splitLines content).set (L - 1)
        (rewriteLineB ((splitLines content).getD (L - 1) []) alloc)).modifyHead
        stripBOM := by
    rw [hout]
    exact splitLines_intercalate _ _ hne' hcr' hnl' hsep
  have hget : (splitLines out).getD (L - 1) [] =
      rewriteLineB ((splitLines content).getD (L - 1) []) alloc := by
    rw [hlines_out, modifyHead_getD_of_head_ok]
    · rw [List.getD_eq_getElem?_getD,
        List.getElem?_set_self (by omega), Option.getD_some]
    · intro hi0 x hx
      rw [← hi0, List.getElem?_set_self (by omega)] at hx
      obtain rfl := Option.some.inj hx
      rw [hmcons]
      apply stripBOM_of_head_ne
      rw [List.head?_cons]
      intro hceq
      exact letter_ne_bom hcrange (Option.some.inj hceq)
  have hlout : (splitLines out).length = (splitLines content).length := by
    rw [hlines_out, modifyHead_length, List.length_set]
  have hplusmem : '+' ∈ rewriteLineB ((splitLines content).getD (L - 1) []) alloc := by
    obtain ⟨hplt', hpval, -⟩ := List.findIdx?_eq_some_iff_getElem.mp hpm
    apply List.getElem?_mem
    rw [List.getElem?_eq_getElem hplt']
    simpa using hpval
  obtain ⟨r', hr'mem, hr'ln, hr'eq⟩ :=
    parseLoop_mem_of_line isReceiptRow extractFieldsB invalidRowMsgB
      (splitLines out) 1 0 (L - 1) (by omega)
      (by rw [hget, htrimm]; rw [hmcons]; simp)
      (by
        rw [hget, htrimm, isReceiptRow, Bool.and_eq_true]
        refine ⟨hlm, ?_⟩
        rw [List.contains, List.elem_eq_mem, decide_eq_true_eq]
        exact hplusmem)
      { rowType := (trimList ((splitLines content).getD (L - 1) [])).headD ' ',
        businessNumber :=
          jsSubstring (trimList ((splitLines content).getD (L - 1) [])) 1 10,
        year := digitsToNat
          (jsSubstring (trimList ((splitLines content).getD (L - 1) [])) 10 14),
        month := digitsToNat
          (jsSubstring (trimList ((splitLines content).getD (L - 1) [])) 14 16),
        day := digitsToNat
          (jsSubstring (trimList ((splitLines content).getD (L - 1) [])) 16 18),
        receiptNumber := stripLeadingZeros
          (jsSubstring (trimList ((splitLines content).getD (L - 1) []))
            18 (p - 9)),
        vatAmount := digitsToNat
          (jsSubstring (trimList ((splitLines content).getD (L - 1) []))
            (p - 9) p),
        sumWithoutVat := digitsToNat
          (jsSubstring (trimList ((splitLines content).getD (L - 1) []))
            (p + 1) (p + 11)),
        allocationNumber := alloc }
      (by rw [hget, htrimm]; exact hfm)
  refine ⟨r', ?_, by omega, ?_⟩
  · rw [parseFile, parseFileCore_receipts]
    exact hr'mem
  · rw [hr'eq, hreq, hfeq]
    exact ⟨rfl, rfl, rfl, rfl, rfl, rfl, rfl, rfl, rfl⟩

/-- Variant A round trip: re-parsing the updated fixed-width text yields a
record at line `L` with the new allocation and all other fields
unchanged (no extra condition: the allocation field is disjoint from every
other field). -/
theorem roundtrip_A {content : List Char} {L : Nat} {alloc out : List Char}
    {r : IReceipt}
    (hupd : updateAllocationA content L alloc = .ok out)
    (hr : r ∈ (parseFileA content).receipts) (hrL : r.lineNumber = L) :
    ∃ r' ∈ (parseFileA out).receipts, r'.lineNumber = L ∧
      r'.allocationNumber = alloc ∧ r'.rowType = r.rowType ∧
      r'.businessNumber = r.businessNumber ∧ r'.year = r.year ∧
      r'.month = r.month ∧ r'.day = r.day ∧
      r'.receiptNumber = r.receiptNumber ∧ r'.vatAmount = r.vatAmount ∧
      r'.sumWithoutVat = r.sumWithoutVat := by
  obtain ⟨hd, h1, h2, hrowu, hout⟩ := updateCore_eq_ok hupd
  rw [parseFileA, parseFileCore_receipts] at hr
  obtain ⟨k, hk, hln, htne, htrow, f, hf, hreq⟩ :=
    parseLoop_mem_inv isReceiptRowA extractFieldsA invalidRowMsgA
      (splitLines content) 1 0 r hr
  have hkL : k = L - 1 := by omega
  rw [hkL] at htne htrow hf hreq
  rw [isReceiptRowA, Bool.and_eq_true, Bool.and_eq_true] at hrowu
  obtain ⟨⟨hut, hulen⟩, huplus⟩ := hrowu
  have hulen60 : ((splitLines content).getD (L - 1) []).length = 60 :=
    beq_iff_eq.mp hulen
  obtain ⟨-, htlen60, -⟩ := extractFieldsA_eq_some hf
  have htu : trimList ((splitLines content).getD (L - 1) []) =
      (splitLines content).getD (L - 1) [] := by
    apply trimList_eq_self_of_length
    rw [htlen60, hulen60]
  rw [htu] at htne htrow hf hreq
  obtain ⟨htt, -, hplus40, htb, hty, htmo, htd, htyr, htmor, htdr, htrcp,
    htvat, htsum, htalloc, hfeq⟩ := extractFieldsA_eq_some hf
  obtain ⟨c, rest, hcons, hcrange⟩ := jsTest_t_inv hut
  have hl9 : alloc.length = 9 := digitsLen_length hd
  have htk51 : (((splitLines content).getD (L - 1) []).take 51).length = 51 := by
    rw [List.length_take]
    omega
  have hlenm : (rewriteLineA ((splitLines content).getD (L - 1) []) alloc).length = 60 := by
    rw [rewriteLineA, List.length_append, htk51, hl9]
  obtain ⟨mtail, hmcons⟩ : ∃ mtail,
      rewriteLineA ((splitLines content).getD (L - 1) []) alloc = c :: mtail := by
    rw [rewriteLineA, hcons, List.take_cons (by omega)]
    exact ⟨_, rfl⟩
  have hsubA : ∀ a b : Nat, b ≤ 51 →
      jsSubstring (rewriteLineA ((splitLines content).getD (L - 1) []) alloc) a b =
        jsSubstring ((splitLines content).getD (L - 1) []) a b := by
    intro a b hb
    rw [rewriteLineA, jsSubstring_take_append hb (by omega)]
  have hmalloc : jsSubstring
      (rewriteLineA ((splitLines content).getD (L - 1) []) alloc) 51 60 =
      alloc := by
    rw [jsSubstring, List.take_of_length_le (by rw [hlenm]), rewriteLineA,
      List.drop_left' htk51]
  have hm40 : (rewriteLineA ((splitLines content).getD (L - 1) []) alloc).getD
      40 '\x00' = '+' := by
    rw [rewriteLineA, List.getD_eq_getElem?_getD,
      List.getElem?_append_left (show (40 : Nat) <
        ((((splitLines content).getD (L - 1) []).take 51)).length by
          rw [htk51]; omega),
      List.getElem?_take_of_lt (show (40 : Nat) < 51 by omega),
      ← List.getD_eq_getElem?_getD, hplus40]
  have hallocne : alloc ≠ [] := by
    intro hc
    rw [hc] at hl9
    simp at hl9
  have htrimm : trimList (rewriteLineA ((splitLines content).getD (L - 1) []) alloc) =
      rewriteLineA ((splitLines content).getD (L - 1) []) alloc := by
    rw [rewriteLineA]
    apply trimList_eq_self_head_digits ?_ hallocne (digitsLen_all hd)
    intro c' hc'
    rw [← rewriteLineA, hmcons] at hc'
    obtain rfl := Option.some.inj hc'
    rcases hcrange with rfl | rfl <;> decide
  have hlmt : jsTestStartTCI
      (rewriteLineA ((splitLines content).getD (L - 1) []) alloc) = true := by
    rw [hmcons]
    show (c == 'T' || c == 't') = true
    rcases hcrange with hr' | hr' <;> simp [hr']
  have hfm := extractFieldsA_intro hlmt (beq_iff_eq.mpr hlenm)
    (beq_iff_eq.mpr hm40)
    (by rw [hsubA 1 10 (by omega)]; exact htb)
    (by rw [hsubA 10 14 (by omega)]; exact hty)
    (by rw [hsubA 10 14 (by omega)]; exact htyr)
    (by rw [hsubA 14 16 (by omega)]; exact htmo)
    (by rw [hsubA 14 16 (by omega)]; exact htmor)
    (by rw [hsubA 16 18 (by omega)]; exact htd)
    (by rw [hsubA 16 18 (by omega)]; exact htdr)
    (by rw [hsubA 22 31 (by omega)]; exact htrcp)
    (by rw [hsubA 31 40 (by omega)]; exact htvat)
    (by rw [hsubA 41 51 (by omega)]; exact htsum)
    (by rw [hmalloc]; exact hd)
  have hheadm : (rewriteLineA ((splitLines content).getD (L - 1) []) alloc).headD ' ' =
      ((splitLines content).getD (L - 1) []).headD ' ' := by
    rw [hmcons, hcons]
    rfl
  rw [hheadm, hsubA 1 10 (by omega), hsubA 10 14 (by omega),
    hsubA 14 16 (by omega), hsubA 16 18 (by omega), hsubA 22 31 (by omega),
    hsubA 31 40 (by omega), hsubA 41 51 (by omega), hmalloc] at hfm
  have hcr' : ∀ l ∈ (splitLines content).set (L - 1)
      (rewriteLineA ((splitLines content).getD (L - 1) []) alloc), '\r' ∉ l := by
    intro l hl
    rcases List.mem_or_eq_of_mem_set hl with hl' | rfl
    · exact splitLines_no_cr content l hl'
    · exact take_append_no_char
        (splitLines_no_cr content _ (getD_mem_of_lt (by omega)))
        (digits_no_cr_nl (digitsLen_all hd)).1
  have hnl' : ∀ l ∈ (splitLines content).set (L - 1)
      (rewriteLineA ((splitLines content).getD (L - 1) []) alloc), '\n' ∉ l := by
    intro l hl
    rcases List.mem_or_eq_of_mem_set hl with hl' | rfl
    · exact splitLines_no_nl content l hl'
    · exact take_append_no_char
        (splitLines_no_nl content _ (getD_mem_of_lt (by omega)))
        (digits_no_cr_nl (digitsLen_all hd)).2
  have hne' : (splitLines content).set (L - 1)
      (rewriteLineA ((splitLines content).getD (L - 1) []) alloc) ≠ [] := by
    rw [Ne, List.set_eq_nil_iff]
    exact splitLines_ne_nil content
  have hsep : eolOf content = ['\n'] ∨ eolOf content = ['\r', '\n'] := by
    rw [eolOf]
    split
    · right; rfl
    · left; rfl
  have hlines_out : splitLines out =
      ((splitLines content).set (L - 1)
        (rewriteLineA ((splitLines content).getD (L - 1) []) alloc)).modifyHead
        stripBOM := by
    rw [hout]
    exact splitLines_intercalate _ _ hne' hcr' hnl' hsep
  have hget : (splitLines out).getD (L - 1) [] =
      rewriteLineA ((splitLines content).getD (L - 1) []) alloc := by
    rw [hlines_out, modifyHead_getD_of_head_ok]
    · rw [List.getD_eq_getElem?_getD,
        List.getElem?_set_self (by omega), Option.getD_some]
    · intro hi0 x hx
      rw [← hi0, List.getElem?_set_self (by omega)] at hx
      obtain rfl := Option.some.inj hx
      rw [hmcons]
      apply stripBOM_of_head_ne
      rw [List.head?_cons]
      intro hceq
      have := Option.some.inj hceq
      rcases hcrange with rfl | rfl <;> simp at this
  have hlout : (splitLines out).length = (splitLines content).length := by
    rw [hlines_out, modifyHead_length, List.length_set]
  obtain ⟨r', hr'mem, hr'ln, hr'eq⟩ :=
    parseLoop_mem_of_line isReceiptRowA extractFieldsA invalidRowMsgA
      (splitLines out) 1 0 (L - 1) (by omega)
      (by rw [hget, htrimm]; rw [hmcons]; simp)
      (by
        rw [hget, htrimm, isReceiptRowA, Bool.and_eq_true, Bool.and_eq_true]
        exact ⟨⟨hlmt, beq_iff_eq.mpr hlenm⟩, beq_iff_eq.mpr hm40⟩)
      { rowType := ((splitLines content).getD (L - 1) []).headD ' ',
        businessNumber :=
          jsSubstring ((splitLines content).getD (L - 1) []) 1 10,
        year := digitsToNat
          (jsSubstring ((splitLines content).getD (L - 1) []) 10 14),
        month := digitsToNat
          (jsSubstring ((splitLines content).getD (L - 1) []) 14 16),
        day := digitsToNat
          (jsSubstring ((splitLines content).getD (L - 1) []) 16 18),
        receiptNumber := stripLeadingZeros
          (jsSubstring ((splitLines content).getD (L - 1) []) 22 31),
        vatAmount := digitsToNat
          (jsSubstring ((splitLines content).getD (L - 1) []) 31 40),
        sumWithoutVat := digitsToNat
          (jsSubstring ((splitLines content).getD (L - 1) []) 41 51),
        allocationNumber := alloc }
      (by rw [hget, htrimm]; exact hfm)
  refine ⟨r', ?_, by omega, ?_⟩
  · rw [parseFileA, parseFileCore_receipts]
    exact hr'mem
  · rw [hr'eq, hreq, hfeq]
    exact ⟨rfl, rfl, rfl, rfl, rfl, rfl, rfl, rfl, rfl⟩

/-- C2 counterexample: on a minimal-length (47+) record line whose first
`'+'` sits only 11 characters before the end, `updateAllocation` succeeds,
yet re-parsing the output changes `sumWithoutVat` (the trailing 9-character
allocation overwrite clobbers the 10-digit net field that follows `'+'`),
so the round trip does not preserve every other field. -/
theorem C2_counterexample :
    (parseFile rowBov).receipts.map
        (fun r => (r.lineNumber, r.sumWithoutVat, r.allocationNumber)) =
      [(1, 200, "000000200".toList)] ∧
    updateAllocation rowBov 1 ("111111111".toList) = .ok rowBovUpd ∧
    (parseFile rowBovUpd).receipts.map
        (fun r => (r.lineNumber, r.sumWithoutVat, r.allocationNumber)) =
      [(1, 111111111, "111111111".toList)] := by
  decide

/-- C2 (amended): the round trip holds with a field-disjointness proviso in
Variant B and unconditionally in Variant A. Variant B: if `updateAllocation`
succeeds, the pre-update parse has a record at line `L`, and the updated
line's first `'+'` lies at least 20 characters before the line end (so the
trailing 9-character allocation field cannot overlap the 10-digit net field
after the `'+'`), then re-parsing the output yields a record at line `L`
whose allocation equals the new value and whose every other field is
unchanged. Variant A: the same conclusion with no proviso, since the
allocation field occupies fixed indices 51–59, disjoint from all other
fields of the fixed-width 60-character row. -/
theorem C2_roundtrip_amended :
    (∀ (content : List Char) (L : Nat) (alloc out : List Char) (r : IReceipt),
      updateAllocation content L alloc = .ok out →
      r ∈ (parseFile content).receipts → r.lineNumber = L →
      (∀ p, ((splitLines content).getD (L - 1) []).findIdx?
          (fun c => c == '+') = some p →
        p + 20 ≤ ((splitLines content).getD (L - 1) []).length) →
      ∃ r' ∈ (parseFile out).receipts, r'.lineNumber = L ∧
        r'.allocationNumber = alloc ∧ r'.rowType = r.rowType ∧
        r'.businessNumber = r.businessNumber ∧ r'.year = r.year ∧
        r'.month = r.month ∧ r'.day = r.day ∧
        r'.receiptNumber = r.receiptNumber ∧ r'.vatAmount = r.vatAmount ∧
        r'.sumWithoutVat = r.sumWithoutVat) ∧
    (∀ (content : List Char) (L : Nat) (alloc out : List Char) (r : IReceipt),
      updateAllocationA content L alloc = .ok out →
      r ∈ (parseFileA content).receipts → r.lineNumber = L →
      ∃ r' ∈ (parseFileA out).receipts, r'.lineNumber = L ∧
        r'.allocationNumber = alloc ∧ r'.rowType = r.rowType ∧
        r'.businessNumber = r.businessNumber ∧ r'.year = r.year ∧
        r'.month = r.month ∧ r'.day = r.day ∧
        r'.receiptNumber = r.receiptNumber ∧ r'.vatAmount = r.vatAmount ∧
        r'.sumWithoutVat = r.sumWithoutVat) :=
  ⟨fun _ _ _ _ _ h hm hL hp => roundtrip_B h hm hL hp,
    fun _ _ _ _ _ h hm hL => roundtrip_A h hm hL⟩

/-- C2 witness: the amended round trip instantiated on concrete inputs for
both variants — a 56-character Variant B line (first `'+'` at index 36, and
36 + 20 ≤ 56) updated to allocation `999999999`, and the 60-character
Variant A line updated to allocation `888888888`. -/
theorem C2_witness :
    (∃ r' ∈ (parseFile
        ("A12345678920251102000000014000000100+0000000200999999999".toList)).receipts,
      r'.lineNumber = 1 ∧
        r'.allocationNumber = "999999999".toList ∧ r'.rowType = 'A' ∧
        r'.businessNumber = "123456789".toList ∧ r'.year = 2025 ∧
        r'.month = 11 ∧ r'.day = 2 ∧
        r'.receiptNumber = "14".toList ∧ r'.vatAmount = 100 ∧
        r'.sumWithoutVat = 200) ∧
    (∃ r' ∈ (parseFileA
        ("T123456789202511020000000000014000000100+0000000200888888888".toList)).receipts,
      r'.lineNumber = 1 ∧
        r'.allocationNumber = "888888888".toList ∧ r'.rowType = 'T' ∧
        r'.businessNumber = "123456789".toList ∧ r'.year = 2025 ∧
        r'.month = 11 ∧ r'.day = 2 ∧
        r'.receiptNumber = "14".toList ∧ r'.vatAmount = 100 ∧
        r'.sumWithoutVat = 200) :=
  ⟨C2_roundtrip_amended.1 exampleRowB 1 ("999999999".toList)
      ("A12345678920251102000000014000000100+0000000200999999999".toList)
      ({ rowIndex := 0, lineNumber := 1, rawRow := exampleRowB,
         rowType := 'A', businessNumber := "123456789".toList, year := 2025,
         month := 11, day := 2, receiptNumber := "14".toList,
         vatAmount := 100, sumWithoutVat := 200,
         allocationNumber := "000000300".toList })
      (by decide) (by decide) (by decide)
      (fun p hp => by
        have h36 : ((splitLines exampleRowB).getD 0 []).findIdx?
            (fun c => c == '+') = some 36 := by decide
        rw [h36] at hp
        obtain rfl := Option.some.inj hp
        decide),
    C2_roundtrip_amended.2 exampleRowA 1 ("888888888".toList)
      ("T123456789202511020000000000014000000100+0000000200888888888".toList)
      ({ rowIndex := 0, lineNumber := 1, rawRow := exampleRowA,
         rowType := 'T', businessNumber := "123456789".toList, year := 2025,
         month := 11, day := 2, receiptNumber := "14".toList,
         vatAmount := 100, sumWithoutVat := 200,
         allocationNumber := "000000300".toList })
      (by decide) (by decide) (by decide)⟩
